import Mathlib

/-!
# Verification of the `pyiron_workflow` node core

A shallow embedding of the node/graph core of `pyiron_workflow`
(`node.py`, `semantics.py`) together with the collaborating pieces the
node core calls into.  Components of the repository whose source is not
part of this development (`run.py`, `topology.py`, `io.py`/`channels.py`,
`storage.py`) are modelled from the specification and are marked as such
in their doc comments.

Strings are embedded as `List Char` (the `Str` abbreviation below), node
identity (`id(node)` in Python) as the `Nat` key of the node in the graph
heap, and Python exceptions as an explicit error type threaded through
`Except`, with the error value carrying the heap state at raise time so
that restoration properties can be stated.
-/

namespace PyironWorkflow

/-- Python strings, embedded as lists of characters. -/
abbrev Str := List Char

/-- Convert a Lean string literal to the embedded string type. -/
def str (s : String) : Str := s.data

/-- Python's `str` applied to a `bool` (`"True"` / `"False"`). -/
def pyBool (b : Bool) : Str := if b then str "True" else str "False"

/-- One decimal digit as a character (`0 ≤ d < 10` in use). -/
def digitChar10 (d : Nat) : Char := Char.ofNat (48 + d)

/-- Little-endian decimal digits, structurally recursive on fuel so that
concrete instances reduce by `decide`. -/
def digitsAux : Nat → Nat → List Nat
  | 0, _ => []
  | fuel + 1, n => if n = 0 then [] else n % 10 :: digitsAux fuel (n / 10)

/-- Little-endian decimal digits of a natural number. -/
def decDigits (n : Nat) : List Nat := digitsAux n n

/-- Python's `str` applied to a nonnegative integer: its decimal rendering. -/
def natStr (n : Nat) : Str :=
  if n = 0 then [ '0' ] else ((decDigits n).map digitChar10).reverse

/-!
## Data model

Channels and nodes, following `node.py` and the channel/IO collaborators.
Data payloads are embedded as `Nat`; the type-hint conformance check of a
data channel is an abstract boolean predicate on payloads (identically
`true` models an absent hint / an exempt input).  A data-input channel's
value is an `Option Nat`, with `none` embedding the `NOT_DATA` sentinel.
-/

/-- A data input channel: current value (`none` = no data), type-hint
conformance predicate, and the ordered list of connected sources, each a
(source node id, source output channel label) pair. -/
structure InputChannel where
  value : Option Nat
  typeOk : Nat → Bool
  connections : List (Nat × Str)

/-- A data output channel: just its current value (`none` = no data). -/
structure OutputChannel where
  value : Option Nat

instance : Inhabited InputChannel := ⟨InputChannel.mk none (fun _ => false) []⟩

instance : Inhabited OutputChannel := ⟨OutputChannel.mk none⟩

/-- Modelled from the spec: `Channel.ready` lives in the missing
`channels.py`; per the spec an input is ready iff it "has data and that
data is commensurate with type hints (if any)". -/
def InputChannel.readyB (c : InputChannel) : Bool :=
  match c.value with
  | none => false
  | some v => c.typeOk v

/-- The state of one node: `node.py` attributes used by the claims.
`runConns` is the list of node ids whose `ran` signal output is connected
to this node's `signals.input.run` channel, in connection order.
`executor` records whether an executor is assigned. -/
structure NodeState where
  label : Str
  className : Str
  packageId : Option Str
  running : Bool
  failed : Bool
  save_after_run : Bool
  executor : Bool
  parent : Option Nat
  inputs : List (Str × InputChannel)
  outputs : List (Str × OutputChannel)
  runConns : List Nat

/-- The graph heap: an association list from Python object id to node
state (distinct live objects have distinct ids). -/
abbrev Graph := List (Nat × NodeState)

/-- Look up a node by id (first binding wins, as in a heap). -/
def nodeAt (g : Graph) (i : Nat) : Option NodeState :=
  (g.find? (fun p => p.1 = i)).map (fun p => p.2)

/-- Apply `f` to the node with id `i`, leaving everything else alone. -/
def updAt (g : Graph) (i : Nat) (f : NodeState → NodeState) : Graph :=
  g.map (fun p => if p.1 = i then (p.1, f p.2) else p)

/-- The label of node `i` (empty if absent; absent ids never occur in use). -/
def labelAt (g : Graph) (i : Nat) : Str :=
  match nodeAt g i with
  | some n => n.label
  | none => []

/-- The run-signal input connections of node `i`. -/
def runConnsAt (g : Graph) (i : Nat) : List Nat :=
  match nodeAt g i with
  | some n => n.runConns
  | none => []

/-- Whether node `i` has an executor assigned. -/
def executorAt (g : Graph) (i : Nat) : Bool :=
  match nodeAt g i with
  | some n => n.executor
  | none => false

/-- The parent (owning composite) of node `i`, if any. -/
def parentAt (g : Graph) (i : Nat) : Option Nat :=
  match nodeAt g i with
  | some n => n.parent
  | none => none

/-- The ids of the nodes one data-connection upstream of node `i`:
the sources of all of its data-input connections, in channel order. -/
def upstreamIds (g : Graph) (i : Nat) : List Nat :=
  match nodeAt g i with
  | some n => (n.inputs.map (fun kc => kc.2.connections.map Prod.fst)).flatten
  | none => []

/-!
## Topology analysis (pull path)

`node.py` imports `get_nodes_in_data_tree` and
`set_run_connections_according_to_linear_dag` from `topology.py`, which is
not part of this development; both are modelled from the spec (§4.3).
-/

/-- Breadth-first accumulation of the upstream closure; the visited list
never acquires duplicates. -/
def dataTreeAux (g : Graph) : Nat → List Nat → List Nat → List Nat
  | 0, visited, _ => visited
  | _ + 1, visited, [] => visited
  | fuel + 1, visited, j :: frontier =>
    if j ∈ visited then dataTreeAux g fuel visited frontier
    else dataTreeAux g fuel (visited ++ [j]) (frontier ++ upstreamIds g j)

/-- Enough fuel to exhaust the closure: one unit per possible frontier
insertion (the seed node plus every data connection in the heap). -/
def treeFuel (g : Graph) : Nat :=
  2 + g.length +
    (g.map (fun p => (p.2.inputs.map (fun kc => kc.2.connections.length)).sum)).sum

/-- Modelled from the spec: `get_nodes_in_data_tree` (missing
`topology.py`) computes "the closure of nodes reachable by following
data-input connections backward" from the given node. -/
def get_nodes_in_data_tree (g : Graph) (i : Nat) : List Nat :=
  dataTreeAux g (treeFuel g) [] [i]

/-- One round of Kahn's algorithm: find a remaining node all of whose
in-tree upstream dependencies have already been placed. -/
def kahnPick (g : Graph) (remaining : List Nat) : Option Nat :=
  remaining.find? (fun b => (upstreamIds g b).all (fun a => ¬ (a ∈ remaining)))

/-- Kahn's algorithm on the sub-graph induced by the tree nodes; `none`
means a cycle was detected. -/
def kahnAux (g : Graph) : Nat → List Nat → List Nat → Option (List Nat)
  | 0, remaining, acc => if remaining.isEmpty then some acc else none
  | fuel + 1, remaining, acc =>
    if remaining.isEmpty then some acc
    else
      match kahnPick g remaining with
      | none => none
      | some b => kahnAux g fuel (remaining.erase b) (acc ++ [b])

/-- Derive one valid linear execution order of the tree nodes, or detect
that the data dependencies are cyclic. -/
def linearOrder (g : Graph) (tree : List Nat) : Option (List Nat) :=
  kahnAux g tree.length tree []

/-- Clear the run-signal input connections of one node
(`signals.disconnect_run`). -/
def disconnectRun (i : Nat) (g : Graph) : Graph :=
  updAt g i (fun n => { n with runConns := [] })

/-- Wire the derived linear order as a signal chain: each node's `ran`
feeds the next node's `run`, i.e. each non-head node's run-input
connection list becomes exactly its predecessor. -/
def wireChain (order : List Nat) (g : Graph) : Graph :=
  (order.zip (order.drop 1)).foldl
    (fun h ab => updAt h ab.2 (fun n => { n with runConns := [ab.1] })) g

/-- Modelled from the spec: `set_run_connections_according_to_linear_dag`
(missing `topology.py`).  Records every tree node's current run-signal
connections, then either detects a cycle — in which case any connections
it broke are repaired before the error is raised, so the net effect on
the graph is `none` change — or disconnects them and wires the linear
chain, returning the new graph, the recorded connections, and the order
(whose head is the starter). -/
def set_run_connections (g : Graph) (tree : List Nat) :
    Option (Graph × List (Nat × List Nat) × List Nat) :=
  match linearOrder g tree with
  | none => none
  | some order =>
    let saved := tree.map (fun j => (j, runConnsAt g j))
    let cleared := tree.foldl (fun h j => disconnectRun j h) g
    some (wireChain order cleared, saved, order)

/-!
## `Node.run_data_tree` (`node.py`, lines 455–517)

The pushed execution `starter.run()` is the full recursive push machinery
of the graph; it is abstracted as a function `push` from the starter id
and the current graph to either a finished graph or a raised error
carrying the graph at raise time.  The parent-chain recursion of
`run_parent_trees_too` is fuel-indexed (parent chains are finite).
-/

/-- Python exceptions observable in the node core. -/
inductive PyErr
  /-- `TypeError` -/
  | typeErr
  /-- `ValueError` with its message. -/
  | valueErr (msg : Str)
  /-- `ReadinessError` with its message. -/
  | readiness (msg : Str)
  /-- `CircularDataFlowError` raised by the topology analysis. -/
  | circularDataFlow
  /-- An exception escaping a node's own computation, by code. -/
  | compute (e : Nat)
  /-- Artifact of the fuel-indexed parent recursion (never raised with
  enough fuel). -/
  | fuelOut

/-- The abstract pushed execution: given the starter node id and the
graph, produce the resulting graph or an error carrying the graph at
raise time. -/
abbrev PushFn := Nat → Graph → Except (PyErr × Graph) Graph

/-- The relabelling loop of `run_data_tree`: each tree node's label gets
the decimal object id appended (`node.label + str(id(node))`). -/
def relabelTree (tree : List Nat) (g : Graph) : Graph :=
  tree.foldl (fun h j => updAt h j (fun n => { n with label := n.label ++ natStr j })) g

/-- Insertion into a Python dict rendered as an association list: an
existing key keeps its position and takes the new value, a fresh key is
appended.  On a key collision the earlier value is lost, exactly as in
the `label_map`/`nodes` dicts of `node.py`, lines 483 and 489. -/
def dictInsert {α : Type} (d : List (Str × α)) (k : Str) (v : α) : List (Str × α) :=
  if (d.find? (fun kv => kv.1 = k)).isSome then
    d.map (fun kv => if kv.1 = k then (k, v) else kv)
  else d ++ [(k, v)]

/-- Python dict indexing, `d[k]`.  The default is never reached in use:
`run_data_tree` only indexes `label_map` with keys of `nodes`, and the
two dicts are built with identical key sequences. -/
def dictGet {α : Type} (d : List (Str × α)) (k : Str) (dflt : α) : α :=
  match d.find? (fun kv => kv.1 = k) with
  | some kv => kv.2
  | none => dflt

/-- The cycle-abort restoration loop (`node.py`, lines 499–500): for
every `(modified_label, node)` item of the `nodes` dict, set the node's
label to `label_map[modified_label]`.  A tree node whose dict entry was
overwritten by a modified-label collision is not visited. -/
def restoreLabelsD (label_map : List (Str × Str)) (nodesD : List (Str × Nat))
    (g : Graph) : Graph :=
  nodesD.foldl (fun h kv => updAt h kv.2
    (fun n => { n with label := dictGet label_map kv.1 [] })) g

/-- The `finally`-block restoration loop (`node.py`, lines 513–515): for
every `(modified_label, node)` item of the `nodes` dict, set the node's
label back from `label_map` and disconnect its run signal.  A tree node
lost to a modified-label collision is not visited. -/
def restoreFinallyD (label_map : List (Str × Str)) (nodesD : List (Str × Nat))
    (g : Graph) : Graph :=
  nodesD.foldl (fun h kv => updAt h kv.2
    (fun n => { n with label := dictGet label_map kv.1 [], runConns := [] })) g

/-- The connection restoration loop of the `finally` block (`node.py`,
lines 516–517): re-establish every recorded `(channel, partner)` pair,
here per run-input channel as its saved source list. -/
def restoreConns (saved : List (Nat × List Nat)) (g : Graph) : Graph :=
  saved.foldl (fun h jc => updAt h jc.1 (fun n => { n with runConns := jc.2 })) g

/-- Modelled from the spec: `Inputs.fetch` (missing `io.py`); "each data
input adopts the value from its first connected source that currently
holds real data".  `firstData` walks the connections in priority order. -/
def firstData (g : Graph) : List (Nat × Str) → Option Nat
  | [] => none
  | (j, l) :: rest =>
    match nodeAt g j with
    | none => firstData g rest
    | some n =>
      match n.outputs.find? (fun kc => kc.1 = l) with
      | none => firstData g rest
      | some kc =>
        match kc.2.value with
        | none => firstData g rest
        | some v => some v

/-- Fetch all data inputs of node `i` (`self.inputs.fetch()`). -/
def fetch_inputs (i : Nat) (g : Graph) : Graph :=
  updAt g i (fun n =>
    { n with inputs := n.inputs.map (fun kc =>
        match firstData g kc.2.connections with
        | some v => (kc.1, { kc.2 with value := some v })
        | none => kc) })

/-- The executor-rejection message of `run_data_tree` (`node.py`, lines
475–479), naming the offending node by label. -/
def executorErrMsg (label : Str) : Str :=
  str "Running the data tree is pull-paradigm action, and is " ++
    str "incompatible with using executors. An executor request was " ++
    str "found on " ++ label

/-- The scope-local part of `Node.run_data_tree` (`node.py`, lines
469–517): the executor check; the relabelling loop, which also builds the
`label_map` and `nodes` dicts keyed by `modified_label = node.label +
str(id(node))` (each node's modified label is computed from its label
before the loop rewrites it, and on a modified-label collision a later
node silently overwrites the earlier dict entries); the linear-DAG
rewrite, which receives the `nodes` dict and thus operates on its
surviving values; the pushed execution from the starter; and the
restoration loops, which iterate the `nodes` dict — by a `finally` block
on the push, and explicitly on the cycle-detection path — followed by
re-establishing the recorded connection pairs. -/
def run_data_tree_body (push : PushFn) (i : Nat) (g0 : Graph) :
    Except (PyErr × Graph) Graph :=
  let tree := get_nodes_in_data_tree g0 i
  match tree.find? (fun j => executorAt g0 j) with
  | some j => Except.error (PyErr.valueErr (executorErrMsg (labelAt g0 j)), g0)
  | none =>
    let label_map := tree.foldl
      (fun d j => dictInsert d (labelAt g0 j ++ natStr j) (labelAt g0 j)) []
    let nodesD := tree.foldl
      (fun d j => dictInsert d (labelAt g0 j ++ natStr j) j) []
    let g1 := relabelTree tree g0
    match set_run_connections g1 (nodesD.map (fun kv => kv.2)) with
    | none =>
      Except.error (PyErr.circularDataFlow, restoreLabelsD label_map nodesD g1)
    | some (g2, savedConns, order) =>
      let g3 := disconnectRun i g2
      let res : Except (PyErr × Graph) Graph :=
        if order.head? = some i then Except.ok g3 else push (order.headD i) g3
      let restore : Graph → Graph := fun h =>
        restoreConns savedConns (restoreFinallyD label_map nodesD h)
      match res with
      | Except.ok h => Except.ok (restore h)
      | Except.error (e, h) => Except.error (e, restore h)

/-- The method `Node.run_data_tree` (`node.py`, lines 455–517); `fuel` bounds the
parent-chain recursion depth (parent chains are finite). -/
def run_data_tree (push : PushFn) :
    Nat → Nat → Bool → Graph → Except (PyErr × Graph) Graph
  | fuel, i, run_parent_trees_too, g =>
    if run_parent_trees_too then
      match parentAt g i with
      | some p =>
        (match fuel with
         | 0 => Except.error (PyErr.fuelOut, g)
         | fuel' + 1 =>
           match run_data_tree push fuel' p true g with
           | Except.error e => Except.error e
           | Except.ok h => run_data_tree_body push i (fetch_inputs p h))
      | none => run_data_tree_body push i g
    else run_data_tree_body push i g

/-- Collision-freedom of the temporary relabelling at one scope: the
modified labels `label + str(id)` of the data-tree nodes are pairwise
distinct, so the `label_map`/`nodes` dicts lose no entry. -/
abbrev treeFree (i : Nat) (g : Graph) : Prop :=
  ((get_nodes_in_data_tree g i).map (fun j => labelAt g j ++ natStr j)).Nodup

/-- Collision-freedom along the whole parent-chain recursion of
`run_data_tree`: the scope entered at each level is collision-free in
the graph state it actually sees. -/
def chainFree (push : PushFn) : Nat → Nat → Bool → Graph → Prop
  | fuel, i, rpt, g =>
    if rpt then
      match parentAt g i with
      | some p =>
        (match fuel with
         | 0 => True
         | fuel' + 1 =>
           chainFree push fuel' p true g ∧
             ∀ h, run_data_tree push fuel' p true g = Except.ok h →
               treeFree i (fetch_inputs p h))
      | none => treeFree i g
    else treeFree i g

/-!
## Shape preservation

The observable structure claim C1 is about: each node's label and
run-signal connections (and its presence in the heap).
-/

/-- The label and run-connection shape of node `j` (`none` if absent). -/
def shapeAt (g : Graph) (j : Nat) : Option (Str × List Nat) :=
  (nodeAt g j).map (fun n => (n.label, n.runConns))

/-- Graph `h` has every node's label and run-signal connections exactly as `g`
has them. -/
def ShapePreserved (g h : Graph) : Prop := ∀ j, shapeAt h j = shapeAt g j

/-- The graph a run result leaves behind (the heap on success, or the
heap at raise time). -/
def resultGraph : Except (PyErr × Graph) Graph → Graph
  | Except.ok h => h
  | Except.error (_, h) => h

/-!
## `Node.run` and its aliases (`node.py`, lines 385–587)

`Node.run` applies keyword overrides, optionally pulls the upstream data
tree, optionally fetches inputs, and then defers to `Runnable.run`
(missing `run.py`), which is modelled from the spec (§4.1 steps 4–7).
-/

/-- Update the entry of label `kv.1` in a label-keyed association list by
`u`, leaving other entries alone. -/
def labelUpd {α β : Type} (u : α → β → α) (l : List (Str × α)) (kv : Str × β) :
    List (Str × α) :=
  l.map (fun kc => if kc.1 = kv.1 then (kc.1, u kc.2 kv.2) else kc)

/-- Modelled from the spec: `set_input_values` (missing IO mixin);
"keyword value overrides are applied to the input channels first".  Each
keyword sets the value of the input channel of the same label. -/
def set_input_values (i : Nat) (kwargs : List (Str × Nat)) (g : Graph) : Graph :=
  updAt g i (fun n =>
    let ins := kwargs.foldl (labelUpd (fun c v => { c with value := some v })) n.inputs
    { n with inputs := ins })

/-- Modelled from the spec: `Runnable.ready` (missing `run.py`); "Status
is neither running nor failed". -/
def runnableReady (i : Nat) (g : Graph) : Bool :=
  match nodeAt g i with
  | some n => !n.running && !n.failed
  | none => false

/-- Modelled from the spec: `Inputs.ready` (missing `io.py`); all data
inputs are ready. -/
def inputsReady (i : Nat) (g : Graph) : Bool :=
  match nodeAt g i with
  | some n => n.inputs.all (fun kc => kc.2.readyB)
  | none => false

/-- The property `Node.ready` (`node.py`, lines 599–601): `super().ready and
self.inputs.ready`. -/
def nodeReady (i : Nat) (g : Graph) : Bool :=
  runnableReady i g && inputsReady i g

/-- The data-input channels of node `i`. -/
def inputsAt (g : Graph) (i : Nat) : List (Str × InputChannel) :=
  match nodeAt g i with
  | some n => n.inputs
  | none => []

/-- Join a list of strings with a separator, as Python's `sep.join`. -/
def joinSep (sep : Str) : List Str → Str
  | [] => []
  | [x] => x
  | x :: xs => x ++ sep ++ joinSep sep xs

/-- Modelled from the spec: the `Runnable.readiness_report` header
(missing `run.py`); an overall ready/not-ready status line. -/
def runnableReadinessReport (i : Nat) (g : Graph) : Str :=
  str "ready: " ++ pyBool (runnableReady i g) ++ str "\n"

/-- The property `Node.readiness_report` (`node.py`, lines 370–375): the superclass
report followed by an `INPUTS:` block with one `"<label> ready: <bool>"`
line per input channel. -/
def readiness_report (i : Nat) (g : Graph) : Str :=
  runnableReadinessReport i g ++ str "INPUTS:\n" ++
    joinSep (str "\n")
      ((inputsAt g i).map
        (fun kc => kc.1 ++ str " ready: " ++ pyBool kc.2.readyB))

/-- The fixed middle part of `Node._readiness_error_message`. -/
def notReadyMsgBody : Str :=
  str " received a run command but is not ready. The node should be neither running nor failed, and all input values should conform to type hints.\n"

/-- The message `Node._readiness_error_message` (`node.py`, lines 377–383). -/
def readiness_error_message (i : Nat) (g : Graph) : Str :=
  labelAt g i ++ notReadyMsgBody ++ readiness_report i g

/-- The abstract computation of the node (`on_run`; abstract in
`node.py`, supplied by child classes): either output values by label, or
a raised exception code. -/
abbrev OnRunFn := Nat → Graph → Except Nat (List (Str × Nat))

/-- The abstract `ran`-signal emission (§4.4 push propagation). -/
abbrev EmitFn := Nat → Graph → Graph

/-- Set the `running` flag of node `i`. -/
def setRunning (i : Nat) (b : Bool) (g : Graph) : Graph :=
  updAt g i (fun n => { n with running := b })

/-- Set the `failed` flag of node `i`. -/
def setFailed (i : Nat) (b : Bool) (g : Graph) : Graph :=
  updAt g i (fun n => { n with failed := b })

/-- Commit output values to the output channels of node `i`. -/
def commitOutputs (i : Nat) (outs : List (Str × Nat)) (g : Graph) : Graph :=
  updAt g i (fun n =>
    let outputs := outs.foldl (labelUpd (fun _ v => OutputChannel.mk (some v))) n.outputs
    { n with outputs := outputs })

/-- Modelled from the spec: `Runnable.run` (missing `run.py`), §4.1 steps
4–7.  If readiness checking is on and the node is not ready, raise a
`ReadinessError` carrying the per-input report, before any computation or
output commit.  Otherwise run locally (or, when an executor is assigned
and local execution is not forced, submit and return with the node left
`running` and outputs uncommitted, standing in for the pending future).
A computation exception sets `failed` and clears `running` before
re-raising; on success outputs are committed, `running` cleared, and the
`ran` signal emitted when requested. -/
def runnableRun (i : Nat) (check_readiness force_local emit : Bool)
    (onRun : OnRunFn) (emitFn : EmitFn) (g : Graph) :
    Except (PyErr × Graph) Graph :=
  if check_readiness && !(nodeReady i g) then
    Except.error (PyErr.readiness (readiness_error_message i g), g)
  else if executorAt g i && !force_local then
    Except.ok (setRunning i true g)
  else
    let g1 := setRunning i true g
    match onRun i g1 with
    | Except.error e =>
      Except.error (PyErr.compute e, setRunning i false (setFailed i true g1))
    | Except.ok outs =>
      let g2 := setRunning i false (commitOutputs i outs g1)
      Except.ok (if emit then emitFn i g2 else g2)

/-- The run flags of `Node.run` (`node.py`, lines 385–394). -/
structure RunFlags where
  run_data_tree : Bool
  run_parent_trees_too : Bool
  fetch_input : Bool
  check_readiness : Bool
  force_local_execution : Bool
  emit_ran_signal : Bool

/-- The default flag values of the `Node.run` signature. -/
def runDefaults : RunFlags :=
  RunFlags.mk false false true true false true

/-- Stages 1–3 of `Node.run` (`node.py`, lines 439–445): apply keyword
overrides, optionally run the upstream data tree, optionally fetch
inputs. -/
def runPrelude (push : PushFn) (fuel i : Nat) (fl : RunFlags)
    (kwargs : List (Str × Nat)) (g : Graph) : Except (PyErr × Graph) Graph :=
  let g1 := set_input_values i kwargs g
  match (if fl.run_data_tree then
      run_data_tree push fuel i fl.run_parent_trees_too g1
    else Except.ok g1) with
  | Except.error e => Except.error e
  | Except.ok g2 => Except.ok (if fl.fetch_input then fetch_inputs i g2 else g2)

/-- The method `Node.run` (`node.py`, lines 385–453). -/
def Node.run (push : PushFn) (onRun : OnRunFn) (emitFn : EmitFn)
    (fuel i : Nat) (fl : RunFlags) (kwargs : List (Str × Nat)) (g : Graph) :
    Except (PyErr × Graph) Graph :=
  match runPrelude push fuel i fl kwargs g with
  | Except.error e => Except.error e
  | Except.ok g3 =>
    runnableRun i fl.check_readiness fl.force_local_execution
      fl.emit_ran_signal onRun emitFn g3

/-- The method `Node.execute` (`node.py`, lines 539–557). -/
def Node.execute (push : PushFn) (onRun : OnRunFn) (emitFn : EmitFn)
    (fuel i : Nat) (kwargs : List (Str × Nat)) (g : Graph) :
    Except (PyErr × Graph) Graph :=
  Node.run push onRun emitFn fuel i
    (RunFlags.mk false false false false true false) kwargs g

/-- The method `Node.pull` (`node.py`, lines 559–580). -/
def Node.pull (push : PushFn) (onRun : OnRunFn) (emitFn : EmitFn)
    (fuel i : Nat) (run_parent_trees_too : Bool) (kwargs : List (Str × Nat))
    (g : Graph) : Except (PyErr × Graph) Graph :=
  Node.run push onRun emitFn fuel i
    (RunFlags.mk true run_parent_trees_too true true false false) kwargs g

/-- The method `Node.__call__` (`node.py`, lines 582–587). -/
def Node.call (push : PushFn) (onRun : OnRunFn) (emitFn : EmitFn)
    (fuel i : Nat) (kwargs : List (Str × Nat)) (g : Graph) :
    Except (PyErr × Graph) Graph :=
  Node.pull push onRun emitFn fuel i true kwargs g

/-!
## The semantic tree (`semantics.py`)

`Semantics` validates labels (a string not containing the delimiter
`"/"`), guards parent assignment, and derives slash-separated paths.
Errors are returned as `Except.error` carrying the (unchanged) state at
raise time, exactly as a raised Python exception leaves the object.
-/

/-- The path delimiter (`Semantics.delimiter = "/"`). -/
def delim : Char := '/'

/-- A Python value passed to the label setter: a string or some other
object. -/
inductive PyVal
  | pystr (s : Str)
  | nonStr

/-- A Python value passed to the parent setter: an object that has
semantics (identified by id) or some other object. -/
inductive ParentObj
  | semObj (i : Nat)
  | plainObj

/-- The state of one `Semantics` component. -/
structure SemState where
  isParentmost : Bool
  label : Str
  parent : Option Nat

/-- The `label` setter (`semantics.py`, lines 27–33): a non-string raises
`TypeError`; a label containing the delimiter raises `ValueError`; both
before the assignment, so the previous label is untouched. -/
def setLabel (s : SemState) (v : PyVal) : Except (PyErr × SemState) SemState :=
  match v with
  | PyVal.nonStr => Except.error (PyErr.typeErr, s)
  | PyVal.pystr l =>
    if delim ∈ l then
      Except.error (PyErr.valueErr (str "/ cannot be in the label"), s)
    else Except.ok { s with label := l }

/-- The `parent` setter (`semantics.py`, lines 39–52): a non-`None`
parent on a `Parentmost` owner raises `TypeError`; a non-`None` value
that is not a `HasSemantics` raises `ValueError`; both before the
assignment. -/
def setParent (s : SemState) (v : Option ParentObj) :
    Except (PyErr × SemState) SemState :=
  match v with
  | none => Except.ok { s with parent := none }
  | some p =>
    if s.isParentmost then Except.error (PyErr.typeErr, s)
    else
      match p with
      | ParentObj.plainObj =>
        Except.error (PyErr.valueErr
          (str "Expected None or another HasSemantics for the semantic parent"), s)
      | ParentObj.semObj i => Except.ok { s with parent := some i }

/-- The derived path of a chain of labels from the root down
(`semantics.py`, lines 54–61): each label prefixed by the delimiter. -/
def semPath (chain : List Str) : Str :=
  (chain.map (fun l => delim :: l)).flatten

/-- Split a string on the delimiter (Python `"...".split("/")`). -/
def splitOnDelim : Str → List Str
  | [] => [[]]
  | c :: rest =>
    if c = delim then [] :: splitOnDelim rest
    else
      match splitOnDelim rest with
      | [] => [[c]]
      | w :: ws => (c :: w) :: ws

/-!
## The storage projection (`node.py`, lines 709–736)

`Node.to_storage` flattens the node's identity, flags, and per-channel
values into a storage record; `Node.from_storage` re-applies such a
record.  `Channel.to_storage`/`from_storage` live in the missing
`channels.py` and are modelled from the spec: the storable value of the
channel is captured and restored.
-/

/-- One channel's storage group: its storable value. -/
structure ChannelStorage where
  val : Option Nat

/-- One node's storage projection. -/
structure NodeStorage where
  package_identifier : Option Str
  class_name : Str
  label : Str
  running : Bool
  failed : Bool
  save_after_run : Bool
  inputs : List (Str × ChannelStorage)
  outputs : List (Str × ChannelStorage)

/-- The method `Node.to_storage` (`node.py`, lines 709–723). -/
def to_storage (n : NodeState) : NodeStorage :=
  NodeStorage.mk n.packageId n.className n.label n.running n.failed
    n.save_after_run
    (n.inputs.map (fun kc => (kc.1, ChannelStorage.mk kc.2.value)))
    (n.outputs.map (fun kc => (kc.1, ChannelStorage.mk kc.2.value)))

/-- Restore one stored input-channel value onto the channel of the same
label (`channel.from_storage`, modelled from the spec). -/
def putInputVal (inputs : List (Str × InputChannel)) (kv : Str × ChannelStorage) :
    List (Str × InputChannel) :=
  labelUpd (fun c s => { c with value := s.val }) inputs kv

/-- Restore one stored output-channel value onto the channel of the same
label (`channel.from_storage`, modelled from the spec). -/
def putOutputVal (outputs : List (Str × OutputChannel)) (kv : Str × ChannelStorage) :
    List (Str × OutputChannel) :=
  labelUpd (fun _ s => OutputChannel.mk s.val) outputs kv

/-- The method `Node.from_storage` (`node.py`, lines 725–736): restore the flags,
then walk the stored input and output groups restoring each channel of
the same label. -/
def from_storage (st : NodeStorage) (n : NodeState) : NodeState :=
  let n1 := { n with running := st.running, failed := st.failed,
                     save_after_run := st.save_after_run }
  let n2 := { n1 with inputs := st.inputs.foldl putInputVal n1.inputs }
  { n2 with outputs := st.outputs.foldl putOutputVal n2.outputs }

/-!
## Post-construction hook (`node.py`, lines 316–348)

`Node.__post__` decides between auto-loading saved content and the
post-init run.  The storage probe, the loader, and the run outcome are
abstracted; the observable effects are recorded as an action trace, and
a raised error carries the actions performed before the raise.
-/

/-- Observable actions of `__post__`. -/
inductive PostAction
  /-- `self.storage.delete()` on `overwrite_save`. -/
  | deleteStorage
  /-- `self.load()`. -/
  | load
  /-- `self.run()` was invoked. -/
  | ran
  /-- `self.graph_root.tidy_working_directory()`. -/
  | tidy

/-- The outcome of the post-init `self.run()` call. -/
inductive RunOutcome
  /-- The run completed. -/
  | ok
  /-- The run raised a `ReadinessError`. -/
  | readinessErr
  /-- The run raised some other exception, by code. -/
  | otherErr (e : Nat)

/-- The load-versus-run conflict message of `__post__` (`node.py`, lines
330–334; the doubled "with" is in the source). -/
def loadAndRunErrMsg : Str :=
  str "Can't both load _and_ run after init -- either delete the save file " ++
    str "(e.g. with with the `overwrite_save=True` kwarg), change the node " ++
    str "label to work in a new space, or give up on running after init."

/-- The hook `Node.__post__` (`node.py`, lines 316–348); `py311` is whether the
interpreter is at least Python 3.11 (saving/loading is gated on it);
`has_contents` is whether the storage probe finds saved content. -/
def nodePost (py311 has_contents overwrite_save run_after_init : Bool)
    (runOut : RunOutcome) : Except (PyErr × List PostAction) (List PostAction) :=
  let first : List PostAction :=
    if overwrite_save && py311 then [PostAction.deleteStorage] else []
  let do_load : Bool :=
    if overwrite_save && py311 then false else py311 && has_contents
  if do_load && run_after_init then
    Except.error (PyErr.valueErr loadAndRunErrMsg, first)
  else if do_load then Except.ok (first ++ [PostAction.load, PostAction.tidy])
  else if run_after_init then
    match runOut with
    | RunOutcome.ok => Except.ok (first ++ [PostAction.ran, PostAction.tidy])
    | RunOutcome.readinessErr => Except.ok (first ++ [PostAction.ran, PostAction.tidy])
    | RunOutcome.otherErr e =>
      Except.error (PyErr.compute e, first ++ [PostAction.ran])
  else Except.ok (first ++ [PostAction.tidy])

/-!
## Lookup lemmas for the run pipeline
-/

/-- The input channel of node `i` labelled `k`, if any. -/
def lookupInput (g : Graph) (i : Nat) (k : Str) : Option InputChannel :=
  ((inputsAt g i).find? (fun kc => kc.1 = k)).map (fun kc => kc.2)

/-!
## Sample data for concrete evaluations
-/

/-- A data-input channel holding conforming data and no connections. -/
def okChannel : InputChannel := InputChannel.mk (some 3) (fun _ => true) []

/-- A ready standalone node. -/
def okNode : NodeState :=
  NodeState.mk (str "n1") (str "SingleValue") none false false false false none
    [(str "x", okChannel)] [(str "y", OutputChannel.mk (some 4))] []

/-- A one-node heap around `okNode`. -/
def okGraph : Graph := [(1, okNode)]

/-- The node `okNode` after its flags and channel values have drifted: same
channel labels, different observable state. -/
def driftedNode : NodeState :=
  NodeState.mk (str "n1") (str "SingleValue") none true true true false none
    [(str "x", InputChannel.mk none (fun _ => true) [])]
    [(str "y", OutputChannel.mk none)] []

/-- An upstream node whose output `y` holds `7`. -/
def srcNode : NodeState :=
  NodeState.mk (str "n2") (str "SingleValue") none false false false false none
    [] [(str "y", OutputChannel.mk (some 7))] []

/-- A downstream input: user-set value `5`, connected to node 2's `y`. -/
def sinkInput : InputChannel := InputChannel.mk (some 5) (fun _ => true) [(2, str "y")]

/-- The downstream node owning `sinkInput`. -/
def sinkNode : NodeState :=
  NodeState.mk (str "n1") (str "SingleValue") none false false false false none
    [(str "x", sinkInput)] [(str "z", OutputChannel.mk none)] []

/-- A two-node heap: node 1 consumes node 2's output. -/
def pairGraph : Graph := [(1, sinkNode), (2, srcNode)]

/-- An input with no data and no connections: never ready. -/
def notReadyInput : InputChannel := InputChannel.mk none (fun _ => true) []

/-- A node that is not ready (its input has no data). -/
def notReadyNode : NodeState :=
  NodeState.mk (str "n3") (str "SingleValue") none false false false false none
    [(str "x", notReadyInput)] [] []

/-- A one-node heap around `notReadyNode`. -/
def notReadyGraph : Graph := [(1, notReadyNode)]

/-- A push stub that leaves the graph untouched. -/
def pushNothing : PushFn := fun _ g => Except.ok g

/-- A computation stub producing no outputs. -/
def onRunNothing : OnRunFn := fun _ _ => Except.ok []

/-- An emission stub that leaves the graph untouched. -/
def emitNothing : EmitFn := fun _ g => g

/-- A standalone node with an executor assigned. -/
def execNode : NodeState :=
  NodeState.mk (str "n4") (str "SingleValue") none false false false true none
    [] [] []

/-- A one-node heap around `execNode`. -/
def execGraph : Graph := [(1, execNode)]

/-- Object id 1, label `"x1"`, one output `y`. -/
def collideUpstream : NodeState :=
  NodeState.mk (str "x1") (str "SingleValue") none false false false false none
    [] [(str "y", OutputChannel.mk (some 1))] []

/-- Object id 11, label `"x"`, its input fed by node 1's `y`. -/
def collideSink : NodeState :=
  NodeState.mk (str "x") (str "SingleValue") none false false false false none
    [(str "x", InputChannel.mk none (fun _ => true) [(1, str "y")])] [] []

/-- A heap where `"x" + str(11)` and `"x1" + str(1)` collide. -/
def collideGraph : Graph := [(11, collideSink), (1, collideUpstream)]

/-- Object id 5, label `"x"`, fed by node 7. -/
def twinSink : NodeState :=
  NodeState.mk (str "x") (str "SingleValue") none false false false false none
    [(str "x", InputChannel.mk none (fun _ => true) [(7, str "y")])] [] []

/-- Object id 7, also labelled `"x"`. -/
def twinSource : NodeState :=
  NodeState.mk (str "x") (str "SingleValue") none false false false false none
    [] [(str "y", OutputChannel.mk (some 1))] []

/-- A heap with two same-labelled nodes in one data tree. -/
def twinGraph : Graph := [(5, twinSink), (7, twinSource)]

/-- A colliding heap for the pull-restoration counterexample: node 11
(label `"x"`, an original run connection from node 9) is fed by node 1
(label `"x1"`), and `"x" + str(11) = "x1" + str(1) = "x11"`, so node 11
is shadowed out of the `label_map`/`nodes` dicts. -/
def shadowGraph : Graph :=
  [(11, NodeState.mk (str "x") (str "SingleValue") none false false false false
      none [(str "x", InputChannel.mk none (fun _ => true) [(1, str "y")])]
      [] [9]),
   (1, NodeState.mk (str "x1") (str "SingleValue") none false false false false
      none [] [(str "y", OutputChannel.mk (some 1))] [])]

/-- A two-node heap with a data cycle: 1 and 2 feed each other. -/
def cyclicGraph : Graph :=
  [(1, NodeState.mk (str "one") (str "SingleValue") none false false false false
      none [(str "x", InputChannel.mk none (fun _ => true) [(2, str "y")])]
      [(str "y", OutputChannel.mk none)] [2]),
   (2, NodeState.mk (str "two") (str "SingleValue") none false false false false
      none [(str "x", InputChannel.mk none (fun _ => true) [(1, str "y")])]
      [(str "y", OutputChannel.mk none)] [1])]

/-!
## Lemmas and claim theorems
-/

theorem digitsAux_eq_digits (fuel n : Nat) (h : n ≤ fuel) :
    digitsAux fuel n = Nat.digits 10 n := by
  induction fuel generalizing n with
  | zero =>
    interval_cases n
    simp [digitsAux]
  | succ fuel ih =>
    by_cases hn : n = 0
    · simp [digitsAux, hn]
    · have hpos : 0 < n := Nat.pos_of_ne_zero hn
      have hdiv : n / 10 ≤ fuel := by
        have : n / 10 < n := Nat.div_lt_self hpos (by norm_num)
        omega
      rw [digitsAux, if_neg hn, ih _ hdiv, Nat.digits_def' (by norm_num : 1 < 10) hpos]

theorem decDigits_eq_digits (n : Nat) : decDigits n = Nat.digits 10 n :=
  digitsAux_eq_digits n n (Nat.le_refl n)

theorem digitChar10_inj {d e : Nat} (hd : d < 10) (he : e < 10)
    (h : digitChar10 d = digitChar10 e) : d = e := by
  revert h
  interval_cases d <;> interval_cases e <;> decide

theorem map_digitChar10_inj {l1 l2 : List Nat}
    (h1 : ∀ d ∈ l1, d < 10) (h2 : ∀ d ∈ l2, d < 10)
    (h : l1.map digitChar10 = l2.map digitChar10) : l1 = l2 := by
  induction l1 generalizing l2 with
  | nil => cases l2 with
    | nil => rfl
    | cons b bs => simp at h
  | cons a as ih =>
    cases l2 with
    | nil => simp at h
    | cons b bs =>
      simp only [List.map_cons, List.cons.injEq] at h
      have ha : a = b :=
        digitChar10_inj (h1 a (by simp)) (h2 b (by simp)) h.1
      have : as = bs := ih (fun d hd => h1 d (by simp [hd]))
        (fun d hd => h2 d (by simp [hd])) h.2
      rw [ha, this]

theorem natStr_ne_zero_str {n : Nat} (hn : n ≠ 0) : natStr n ≠ [ '0' ] := by
  intro h
  rw [natStr, if_neg hn] at h
  have hrev : (decDigits n).map digitChar10 = [ '0' ] := by
    have := congrArg List.reverse h
    simpa using this
  have hlt : ∀ d ∈ Nat.digits 10 n, d < 10 := fun d hd =>
    Nat.digits_lt_base (by norm_num) hd
  rw [decDigits_eq_digits] at hrev
  have : Nat.digits 10 n = [0] := by
    cases hds : Nat.digits 10 n with
    | nil => rw [hds] at hrev; simp at hrev
    | cons d ds =>
      rw [hds] at hrev
      cases ds with
      | nil =>
        simp only [List.map_cons, List.map_nil, List.cons.injEq, and_true] at hrev
        have : d < 10 := hlt d (by rw [hds]; simp)
        have hd0 : d = 0 := digitChar10_inj this (by norm_num)
          (by simpa [digitChar10] using hrev)
        rw [hd0]
      | cons e es => simp at hrev
  have h0 : n = Nat.ofDigits 10 (Nat.digits 10 n) := (Nat.ofDigits_digits 10 n).symm
  rw [this] at h0
  simp [Nat.ofDigits] at h0
  exact hn h0

theorem natStr_inj {a b : Nat} (h : natStr a = natStr b) : a = b := by
  by_cases ha : a = 0
  · by_cases hb : b = 0
    · omega
    · exfalso
      exact natStr_ne_zero_str hb (by rw [← h, natStr, if_pos ha])
  · by_cases hb : b = 0
    · exfalso
      exact natStr_ne_zero_str ha (by rw [h, natStr, if_pos hb])
    · rw [natStr, if_neg ha, natStr, if_neg hb] at h
      have hmap : (decDigits a).map digitChar10 = (decDigits b).map digitChar10 :=
        List.reverse_injective h
      have hda : ∀ d ∈ decDigits a, d < 10 := by
        rw [decDigits_eq_digits]
        exact fun d hd => Nat.digits_lt_base (by norm_num) hd
      have hdb : ∀ d ∈ decDigits b, d < 10 := by
        rw [decDigits_eq_digits]
        exact fun d hd => Nat.digits_lt_base (by norm_num) hd
      have hdig : decDigits a = decDigits b := map_digitChar10_inj hda hdb hmap
      rw [decDigits_eq_digits, decDigits_eq_digits] at hdig
      calc a = Nat.ofDigits 10 (Nat.digits 10 a) := (Nat.ofDigits_digits 10 a).symm
        _ = Nat.ofDigits 10 (Nat.digits 10 b) := by rw [hdig]
        _ = b := Nat.ofDigits_digits 10 b

theorem nodeAt_cons (k : Nat) (n : NodeState) (g : Graph) (j : Nat) :
    nodeAt ((k, n) :: g) j = if k = j then some n else nodeAt g j := by
  by_cases h : k = j <;> simp [nodeAt, List.find?_cons, h]

theorem updAt_cons (k : Nat) (n : NodeState) (g : Graph) (i : Nat)
    (f : NodeState → NodeState) :
    updAt ((k, n) :: g) i f =
      (if k = i then (k, f n) else (k, n)) :: updAt g i f := by
  by_cases h : k = i <;> simp [updAt, h]

theorem nodeAt_updAt (g : Graph) (i j : Nat) (f : NodeState → NodeState) :
    nodeAt (updAt g i f) j =
      if i = j then (nodeAt g j).map f else nodeAt g j := by
  induction g with
  | nil => by_cases h : i = j <;> simp [nodeAt, updAt, h]
  | cons p g ih =>
    obtain ⟨k, n⟩ := p
    rw [updAt_cons]
    by_cases hki : k = i
    · rw [if_pos hki]
      by_cases hij : i = j
      · have hkj : k = j := hki.trans hij
        rw [nodeAt_cons, if_pos hkj, nodeAt_cons, if_pos hkj, if_pos hij]
        rfl
      · have hkj : ¬ k = j := fun h => hij ((hki.symm.trans h))
        rw [nodeAt_cons, if_neg hkj, nodeAt_cons, if_neg hkj, if_neg hij, ih,
          if_neg hij]
    · rw [if_neg hki]
      by_cases hkj : k = j
      · have hij : ¬ i = j := fun h => hki (by rw [h, hkj])
        rw [nodeAt_cons, if_pos hkj, nodeAt_cons, if_pos hkj, if_neg hij]
      · rw [nodeAt_cons, if_neg hkj, nodeAt_cons, if_neg hkj, ih]

theorem dataTreeAux_nodup (g : Graph) (fuel : Nat) (visited frontier : List Nat)
    (h : visited.Nodup) : (dataTreeAux g fuel visited frontier).Nodup := by
  induction fuel generalizing visited frontier with
  | zero => exact h
  | succ fuel ih =>
    cases frontier with
    | nil => exact h
    | cons j frontier =>
      by_cases hj : j ∈ visited
      · rw [dataTreeAux, if_pos hj]
        exact ih visited frontier h
      · rw [dataTreeAux, if_neg hj]
        exact ih _ _ (by simp [List.nodup_append, h, hj])

theorem get_nodes_in_data_tree_nodup (g : Graph) (i : Nat) :
    (get_nodes_in_data_tree g i).Nodup :=
  dataTreeAux_nodup g _ [] [i] (by simp)

theorem dataTreeAux_visited_sub (g : Graph) (fuel : Nat)
    (visited frontier : List Nat) :
    ∀ j ∈ visited, j ∈ dataTreeAux g fuel visited frontier := by
  induction fuel generalizing visited frontier with
  | zero => intro j hj; exact hj
  | succ fuel ih =>
    intro j hj
    cases frontier with
    | nil => exact hj
    | cons k frontier =>
      by_cases hk : k ∈ visited
      · rw [dataTreeAux, if_pos hk]; exact ih visited frontier j hj
      · rw [dataTreeAux, if_neg hk]
        exact ih _ _ j (by simp [hj])

/-- The seed node is always a member of its own data tree. -/
theorem self_mem_data_tree (g : Graph) (i : Nat) :
    i ∈ get_nodes_in_data_tree g i := by
  have h2 : ∃ m, treeFuel g = m + 1 := ⟨1 + g.length +
      (g.map (fun p => (p.2.inputs.map (fun kc => kc.2.connections.length)).sum)).sum,
    by unfold treeFuel; omega⟩
  obtain ⟨m, hm⟩ := h2
  unfold get_nodes_in_data_tree
  rw [hm, dataTreeAux, if_neg (by simp)]
  exact dataTreeAux_visited_sub g m [i] _ i (by simp)

theorem shapePreserved_refl (g : Graph) : ShapePreserved g g := fun _ => rfl

theorem shapePreserved_trans {g h k : Graph} (h1 : ShapePreserved g h)
    (h2 : ShapePreserved h k) : ShapePreserved g k :=
  fun j => (h2 j).trans (h1 j)

theorem nodeAt_foldUpd_not_mem {α : Type} (key : α → Nat)
    (F : α → NodeState → NodeState) (L : List α) (g : Graph) (j : Nat)
    (hj : ∀ x ∈ L, ¬ (key x = j)) :
    nodeAt (L.foldl (fun h x => updAt h (key x) (F x)) g) j = nodeAt g j := by
  induction L generalizing g with
  | nil => rfl
  | cons y L ih =>
    rw [List.foldl_cons, ih _ (fun x hx => hj x (List.mem_cons_of_mem y hx)),
      nodeAt_updAt, if_neg (hj y (List.mem_cons_self y L))]

theorem nodeAt_foldUpd_mem {α : Type} (key : α → Nat)
    (F : α → NodeState → NodeState) (L : List α) (g : Graph) (x : α)
    (hx : x ∈ L) (hnd : (L.map key).Nodup) :
    nodeAt (L.foldl (fun h y => updAt h (key y) (F y)) g) (key x) =
      (nodeAt g (key x)).map (F x) := by
  induction L generalizing g with
  | nil => cases hx
  | cons y L ih =>
    simp only [List.map_cons, List.nodup_cons] at hnd
    rw [List.foldl_cons]
    rcases List.mem_cons.mp hx with heq | hx'
    · subst heq
      rw [nodeAt_foldUpd_not_mem key F L _ (key x)
          (fun z hz hk => hnd.1 (hk ▸ List.mem_map_of_mem key hz)),
        nodeAt_updAt, if_pos rfl]
    · have hne : ¬ (key y = key x) :=
        fun h => hnd.1 (h ▸ List.mem_map_of_mem key hx')
      rw [ih (updAt g (key y) (F y)) hx' hnd.2, nodeAt_updAt, if_neg hne]

theorem nodeAt_foldUpd_isSome {α : Type} (key : α → Nat)
    (F : α → NodeState → NodeState) (L : List α) (g : Graph) (j : Nat) :
    (nodeAt (L.foldl (fun h x => updAt h (key x) (F x)) g) j).isSome =
      (nodeAt g j).isSome := by
  induction L generalizing g with
  | nil => rfl
  | cons y L ih =>
    rw [List.foldl_cons, ih, nodeAt_updAt]
    by_cases h : key y = j <;> simp [h]

theorem map_fst_pair_map {α : Type} (tree : List Nat) (f : Nat → α) :
    ((tree.map (fun j => (j, f j))).map Prod.fst) = tree := by
  induction tree with
  | nil => rfl
  | cons j tree ih => simp [ih]

theorem kahnAux_mem (g : Graph) (fuel : Nat) (remaining acc out : List Nat)
    (h : kahnAux g fuel remaining acc = some out) :
    ∀ x ∈ out, x ∈ acc ∨ x ∈ remaining := by
  induction fuel generalizing remaining acc with
  | zero =>
    rw [kahnAux] at h
    by_cases hr : remaining.isEmpty
    · rw [if_pos hr] at h
      obtain rfl : acc = out := by injection h
      exact fun x hx => Or.inl hx
    · rw [if_neg hr] at h; cases h
  | succ fuel ih =>
    rw [kahnAux] at h
    by_cases hr : remaining.isEmpty
    · rw [if_pos hr] at h
      obtain rfl : acc = out := by injection h
      exact fun x hx => Or.inl hx
    · rw [if_neg hr] at h
      cases hpick : kahnPick g remaining with
      | none => rw [hpick] at h; cases h
      | some b =>
        rw [hpick] at h
        have hb : b ∈ remaining := List.mem_of_find?_eq_some hpick
        intro x hx
        rcases ih _ _ h x hx with hacc | herase
        · rcases List.mem_append.mp hacc with h1 | h1
          · exact Or.inl h1
          · exact Or.inr (by rw [List.mem_singleton.mp h1]; exact hb)
        · exact Or.inr (List.mem_of_mem_erase herase)

/-- Every node of a derived linear order is a tree node. -/
theorem linearOrder_subset (g : Graph) (tree order : List Nat)
    (h : linearOrder g tree = some order) : ∀ x ∈ order, x ∈ tree := by
  intro x hx
  rcases kahnAux_mem g tree.length tree [] order h x hx with h1 | h1
  · cases h1
  · exact h1

theorem nodeAt_relabelTree_not_mem (tree : List Nat) (g : Graph) (j : Nat)
    (hj : j ∉ tree) : nodeAt (relabelTree tree g) j = nodeAt g j :=
  nodeAt_foldUpd_not_mem (fun x => x)
    (fun x n => { n with label := n.label ++ natStr x }) tree g j
    (fun x hx hk => hj (hk ▸ hx))

theorem nodeAt_relabelTree_mem (tree : List Nat) (g : Graph) (j : Nat)
    (hj : j ∈ tree) (hnd : tree.Nodup) :
    nodeAt (relabelTree tree g) j =
      (nodeAt g j).map (fun n => { n with label := n.label ++ natStr j }) :=
  nodeAt_foldUpd_mem (fun x => x)
    (fun x n => { n with label := n.label ++ natStr x }) tree g j hj
    (by simpa using hnd)

theorem nodeAt_restoreLabelsD_not_mem (lm : List (Str × Str))
    (nd : List (Str × Nat)) (g : Graph) (j : Nat)
    (hj : ∀ x ∈ nd, ¬ (x.2 = j)) :
    nodeAt (restoreLabelsD lm nd g) j = nodeAt g j :=
  nodeAt_foldUpd_not_mem Prod.snd
    (fun kv n => { n with label := dictGet lm kv.1 [] }) nd g j hj

theorem nodeAt_restoreLabelsD_mem (lm : List (Str × Str))
    (nd : List (Str × Nat)) (g : Graph) (x : Str × Nat) (hx : x ∈ nd)
    (hnd : (nd.map Prod.snd).Nodup) :
    nodeAt (restoreLabelsD lm nd g) x.2 =
      (nodeAt g x.2).map (fun n => { n with label := dictGet lm x.1 [] }) :=
  nodeAt_foldUpd_mem Prod.snd
    (fun kv n => { n with label := dictGet lm kv.1 [] }) nd g x hx hnd

theorem nodeAt_restoreFinallyD_not_mem (lm : List (Str × Str))
    (nd : List (Str × Nat)) (g : Graph) (j : Nat)
    (hj : ∀ x ∈ nd, ¬ (x.2 = j)) :
    nodeAt (restoreFinallyD lm nd g) j = nodeAt g j :=
  nodeAt_foldUpd_not_mem Prod.snd
    (fun kv n => { n with label := dictGet lm kv.1 [], runConns := [] }) nd g j hj

theorem nodeAt_restoreFinallyD_mem (lm : List (Str × Str))
    (nd : List (Str × Nat)) (g : Graph) (x : Str × Nat) (hx : x ∈ nd)
    (hnd : (nd.map Prod.snd).Nodup) :
    nodeAt (restoreFinallyD lm nd g) x.2 =
      (nodeAt g x.2).map
        (fun n => { n with label := dictGet lm x.1 [], runConns := [] }) :=
  nodeAt_foldUpd_mem Prod.snd
    (fun kv n => { n with label := dictGet lm kv.1 [], runConns := [] }) nd g x hx hnd

theorem map_snd_pair_map (tree : List Nat) (f : Nat → Str) :
    ((tree.map (fun j => (f j, j))).map (fun kv => kv.2)) = tree := by
  induction tree with
  | nil => rfl
  | cons j tree ih => simp [ih]

theorem find?_map_pair {α : Type} (f : Nat → Str) (v : Nat → α) (tree : List Nat)
    (j : Nat) (hj : j ∈ tree) (hnd : (tree.map f).Nodup) :
    (tree.map (fun k => (f k, v k))).find? (fun kv => kv.1 = f j) =
      some (f j, v j) := by
  induction tree with
  | nil => cases hj
  | cons k tree ih =>
    simp only [List.map_cons, List.nodup_cons] at hnd
    rcases List.mem_cons.mp hj with heq | hj'
    · subst heq
      simp [List.find?_cons]
    · have hne : ¬ (f k = f j) :=
        fun h => hnd.1 (h ▸ List.mem_map_of_mem f hj')
      rw [List.map_cons, List.find?_cons]
      simp only [hne, decide_eq_true_eq, if_neg]
      exact ih hj' hnd.2

theorem dictGet_map_pair {α : Type} (f : Nat → Str) (v : Nat → α)
    (tree : List Nat) (j : Nat) (dflt : α) (hj : j ∈ tree)
    (hnd : (tree.map f).Nodup) :
    dictGet (tree.map (fun k => (f k, v k))) (f j) dflt = v j := by
  unfold dictGet
  rw [find?_map_pair f v tree j hj hnd]

theorem foldl_dictInsert_fresh {α : Type} (f : Nat → Str) (v : Nat → α)
    (tree : List Nat) (d0 : List (Str × α))
    (hnd : (tree.map f).Nodup)
    (hdisj : ∀ j ∈ tree, f j ∉ d0.map Prod.fst) :
    tree.foldl (fun d j => dictInsert d (f j) (v j)) d0 =
      d0 ++ tree.map (fun j => (f j, v j)) := by
  induction tree generalizing d0 with
  | nil => simp
  | cons k tree ih =>
    simp only [List.map_cons, List.nodup_cons] at hnd
    rw [List.foldl_cons]
    have hnone : d0.find? (fun kv => kv.1 = f k) = none := by
      rw [List.find?_eq_none]
      intro kv hkv
      simp only [decide_eq_true_eq]
      intro hk
      exact hdisj k (List.mem_cons_self k tree)
        (hk ▸ List.mem_map_of_mem Prod.fst hkv)
    have hfresh : dictInsert d0 (f k) (v k) = d0 ++ [(f k, v k)] := by
      unfold dictInsert
      rw [hnone]
      rfl
    have hdisj' : ∀ j ∈ tree, f j ∉ (d0 ++ [(f k, v k)]).map Prod.fst := by
      intro j hj
      rw [List.map_append, List.mem_append]
      rintro (h1 | h2)
      · exact hdisj j (List.mem_cons_of_mem k hj) h1
      · have : f j = f k := by simpa using h2
        exact hnd.1 (this ▸ List.mem_map_of_mem f hj)
    rw [hfresh, ih (d0 ++ [(f k, v k)]) hnd.2 hdisj']
    simp [List.append_assoc]

theorem nodeAt_restoreConns_not_mem (saved : List (Nat × List Nat)) (g : Graph)
    (j : Nat) (hj : ∀ x ∈ saved, ¬ (x.1 = j)) :
    nodeAt (restoreConns saved g) j = nodeAt g j :=
  nodeAt_foldUpd_not_mem Prod.fst (fun x n => { n with runConns := x.2 }) saved g j hj

theorem nodeAt_restoreConns_mem (saved : List (Nat × List Nat)) (g : Graph)
    (x : Nat × List Nat) (hx : x ∈ saved) (hnd : (saved.map Prod.fst).Nodup) :
    nodeAt (restoreConns saved g) x.1 =
      (nodeAt g x.1).map (fun n => { n with runConns := x.2 }) :=
  nodeAt_foldUpd_mem Prod.fst (fun x n => { n with runConns := x.2 }) saved g x hx hnd

theorem nodeAt_clearRun_not_mem (tree : List Nat) (g : Graph) (j : Nat)
    (hj : j ∉ tree) :
    nodeAt (tree.foldl (fun h x => disconnectRun x h) g) j = nodeAt g j :=
  nodeAt_foldUpd_not_mem (fun x => x) (fun _ n => { n with runConns := [] })
    tree g j (fun x hx hk => hj (hk ▸ hx))

theorem nodeAt_wireChain_not_mem (order : List Nat) (g : Graph) (j : Nat)
    (hj : ∀ ab ∈ order.zip (order.drop 1), ¬ (ab.2 = j)) :
    nodeAt (wireChain order g) j = nodeAt g j :=
  nodeAt_foldUpd_not_mem Prod.snd (fun ab n => { n with runConns := [ab.1] })
    (order.zip (order.drop 1)) g j hj

theorem isSome_relabelTree (tree : List Nat) (g : Graph) (j : Nat) :
    (nodeAt (relabelTree tree g) j).isSome = (nodeAt g j).isSome :=
  nodeAt_foldUpd_isSome (fun x => x)
    (fun x n => { n with label := n.label ++ natStr x }) tree g j

theorem isSome_clearRun (tree : List Nat) (g : Graph) (j : Nat) :
    (nodeAt (tree.foldl (fun h x => disconnectRun x h) g) j).isSome =
      (nodeAt g j).isSome :=
  nodeAt_foldUpd_isSome (fun x => x) (fun _ n => { n with runConns := [] }) tree g j

theorem isSome_wireChain (order : List Nat) (g : Graph) (j : Nat) :
    (nodeAt (wireChain order g) j).isSome = (nodeAt g j).isSome :=
  nodeAt_foldUpd_isSome Prod.snd (fun ab n => { n with runConns := [ab.1] })
    (order.zip (order.drop 1)) g j

theorem isSome_updAt (g : Graph) (i : Nat) (f : NodeState → NodeState) (j : Nat) :
    (nodeAt (updAt g i f) j).isSome = (nodeAt g j).isSome := by
  rw [nodeAt_updAt]
  by_cases h : i = j <;> simp [h]

theorem isSome_disconnectRun (i : Nat) (g : Graph) (j : Nat) :
    (nodeAt (disconnectRun i g) j).isSome = (nodeAt g j).isSome :=
  isSome_updAt g i _ j

theorem nodeAt_disconnectRun_ne (i : Nat) (g : Graph) (j : Nat) (h : ¬ (i = j)) :
    nodeAt (disconnectRun i g) j = nodeAt g j := by
  unfold disconnectRun
  rw [nodeAt_updAt, if_neg h]

theorem shape_isSome (g : Graph) (j : Nat) :
    (shapeAt g j).isSome = (nodeAt g j).isSome := by
  unfold shapeAt
  cases nodeAt g j <;> rfl

/-- Restoration of a node of the tree: setting its label and run-signal
connections back from the saved maps recovers its original shape,
provided it is present exactly when it originally was. -/
theorem shapeAt_restoreD_mem (g0 : Graph) (tree : List Nat) (hnd : tree.Nodup)
    (hfree : (tree.map (fun k => labelAt g0 k ++ natStr k)).Nodup)
    (h : Graph) (j : Nat) (hj : j ∈ tree)
    (hsome : (nodeAt h j).isSome = (nodeAt g0 j).isSome) :
    shapeAt (restoreConns
        (tree.map (fun x => (x, runConnsAt (relabelTree tree g0) x)))
        (restoreFinallyD
          (tree.map (fun k => (labelAt g0 k ++ natStr k, labelAt g0 k)))
          (tree.map (fun k => (labelAt g0 k ++ natStr k, k))) h)) j =
      shapeAt g0 j := by
  have hndc : ((tree.map (fun x =>
      (x, runConnsAt (relabelTree tree g0) x))).map Prod.fst).Nodup := by
    rw [map_fst_pair_map]; exact hnd
  have hndn : ((tree.map (fun k =>
      (labelAt g0 k ++ natStr k, k))).map Prod.snd).Nodup := by
    rw [map_snd_pair_map]; exact hnd
  have hc := nodeAt_restoreConns_mem _
    (restoreFinallyD
      (tree.map (fun k => (labelAt g0 k ++ natStr k, labelAt g0 k)))
      (tree.map (fun k => (labelAt g0 k ++ natStr k, k))) h)
    (j, runConnsAt (relabelTree tree g0) j)
    (List.mem_map_of_mem (fun x => (x, runConnsAt (relabelTree tree g0) x)) hj) hndc
  have hf := nodeAt_restoreFinallyD_mem
    (tree.map (fun k => (labelAt g0 k ++ natStr k, labelAt g0 k)))
    (tree.map (fun k => (labelAt g0 k ++ natStr k, k))) h
    (labelAt g0 j ++ natStr j, j)
    (List.mem_map_of_mem (fun k => (labelAt g0 k ++ natStr k, k)) hj) hndn
  have hdg : dictGet
      (tree.map (fun k => (labelAt g0 k ++ natStr k, labelAt g0 k)))
      (labelAt g0 j ++ natStr j) [] = labelAt g0 j :=
    dictGet_map_pair (fun k => labelAt g0 k ++ natStr k) (fun k => labelAt g0 k)
      tree j [] hj hfree
  cases hg0 : nodeAt g0 j with
  | none =>
    have hh : nodeAt h j = none := by
      rw [hg0] at hsome
      simpa using hsome
    unfold shapeAt
    rw [hc, hf, hh, hg0]
    rfl
  | some n0 =>
    have hs : (nodeAt h j).isSome = true := by rw [hsome, hg0]; rfl
    obtain ⟨nh, hh⟩ := Option.isSome_iff_exists.mp hs
    have hg1 : nodeAt (relabelTree tree g0) j =
        some { n0 with label := n0.label ++ natStr j } := by
      rw [nodeAt_relabelTree_mem tree g0 j hj hnd, hg0]
      rfl
    have hrc : runConnsAt (relabelTree tree g0) j = n0.runConns := by
      unfold runConnsAt
      rw [hg1]
    have hlb : labelAt g0 j = n0.label := by
      unfold labelAt
      rw [hg0]
    unfold shapeAt
    rw [hc, hf, hh, hg0]
    simp only [Option.map_some']
    rw [hrc, hdg, hlb]

/-- Restoration leaves nodes outside the tree untouched (the dict keys
are modified labels but the updated nodes are the dict values, all tree
nodes). -/
theorem nodeAt_restoreD_not_mem (tree : List Nat) (f1 : Nat → List Nat)
    (lm : List (Str × Str)) (f2 : Nat → Str) (h : Graph) (j : Nat)
    (hj : j ∉ tree) :
    nodeAt (restoreConns (tree.map (fun x => (x, f1 x)))
      (restoreFinallyD lm (tree.map (fun k => (f2 k, k))) h)) j = nodeAt h j := by
  rw [nodeAt_restoreConns_not_mem, nodeAt_restoreFinallyD_not_mem]
  · intro x hx hk
    obtain ⟨y, hy, rfl⟩ := List.mem_map.mp hx
    exact hj (hk ▸ hy)
  · intro x hx hk
    obtain ⟨y, hy, rfl⟩ := List.mem_map.mp hx
    exact hj (hk ▸ hy)

/-- The common `finally`-block argument: whatever graph the pushed
execution leaves (of the same shape as the rewritten chain state), the
collision-free restoration loops bring every node's label and run
connections back to the original. -/
theorem restore_all (g0 : Graph) (tree : List Nat) (hnd : tree.Nodup)
    (hfree : (tree.map (fun k => labelAt g0 k ++ natStr k)).Nodup)
    (mids h : Graph)
    (hmid_out : ∀ j, j ∉ tree → shapeAt mids j = shapeAt g0 j)
    (hmid_some : ∀ j, (nodeAt mids j).isSome = (nodeAt g0 j).isSome)
    (hsh : ShapePreserved mids h) :
    ShapePreserved g0
      (restoreConns (tree.map (fun x => (x, runConnsAt (relabelTree tree g0) x)))
        (restoreFinallyD
          (tree.map (fun k => (labelAt g0 k ++ natStr k, labelAt g0 k)))
          (tree.map (fun k => (labelAt g0 k ++ natStr k, k))) h)) := by
  intro j
  by_cases hj : j ∈ tree
  · refine shapeAt_restoreD_mem g0 tree hnd hfree h j hj ?_
    calc (nodeAt h j).isSome = (shapeAt h j).isSome := (shape_isSome h j).symm
      _ = (shapeAt mids j).isSome := by rw [hsh j]
      _ = (nodeAt mids j).isSome := shape_isSome mids j
      _ = (nodeAt g0 j).isSome := hmid_some j
  · have : shapeAt (restoreConns
        (tree.map (fun x => (x, runConnsAt (relabelTree tree g0) x)))
        (restoreFinallyD
          (tree.map (fun k => (labelAt g0 k ++ natStr k, labelAt g0 k)))
          (tree.map (fun k => (labelAt g0 k ++ natStr k, k))) h)) j =
        shapeAt h j := by
      unfold shapeAt
      rw [nodeAt_restoreD_not_mem tree _ _ _ h j hj]
    rw [this, hsh j, hmid_out j hj]

/-- The scope-local body of `run_data_tree` restores every node's label
and run-signal connections no matter how it exits — executor rejection
(before any mutation), cycle detection (labels restored, connections
never rewired), or the `finally` block around the pushed execution —
provided the temporary relabelling is collision-free, so that the
`label_map`/`nodes` dicts lose no node. -/
theorem body_restores (push : PushFn)
    (hpush : ∀ s g', ShapePreserved g' (resultGraph (push s g')))
    (i : Nat) (g0 : Graph) (hfree : treeFree i g0) :
    ShapePreserved g0 (resultGraph (run_data_tree_body push i g0)) := by
  have hnd : (get_nodes_in_data_tree g0 i).Nodup := get_nodes_in_data_tree_nodup g0 i
  have hself : i ∈ get_nodes_in_data_tree g0 i := self_mem_data_tree g0 i
  cases hfind : (get_nodes_in_data_tree g0 i).find? (fun j => executorAt g0 j) with
  | some j =>
    simp only [run_data_tree_body, hfind, resultGraph]
    exact shapePreserved_refl g0
  | none =>
    have hlm : (get_nodes_in_data_tree g0 i).foldl
        (fun d j => dictInsert d (labelAt g0 j ++ natStr j) (labelAt g0 j)) [] =
        (get_nodes_in_data_tree g0 i).map
          (fun j => (labelAt g0 j ++ natStr j, labelAt g0 j)) := by
      have h := foldl_dictInsert_fresh (fun j => labelAt g0 j ++ natStr j)
        (fun j => labelAt g0 j) (get_nodes_in_data_tree g0 i) [] hfree
        (fun j hj hbad => by simp at hbad)
      simpa using h
    have hnm : (get_nodes_in_data_tree g0 i).foldl
        (fun d j => dictInsert d (labelAt g0 j ++ natStr j) j) [] =
        (get_nodes_in_data_tree g0 i).map
          (fun j => (labelAt g0 j ++ natStr j, j)) := by
      have h := foldl_dictInsert_fresh (fun j => labelAt g0 j ++ natStr j)
        (fun j => j) (get_nodes_in_data_tree g0 i) [] hfree
        (fun j hj hbad => by simp at hbad)
      simpa using h
    have hvals : ((get_nodes_in_data_tree g0 i).map
        (fun j => (labelAt g0 j ++ natStr j, j))).map (fun kv => kv.2) =
        get_nodes_in_data_tree g0 i :=
      map_snd_pair_map (get_nodes_in_data_tree g0 i)
        (fun j => labelAt g0 j ++ natStr j)
    have hndn : (((get_nodes_in_data_tree g0 i).map
        (fun j => (labelAt g0 j ++ natStr j, j))).map Prod.snd).Nodup := by
      rw [map_snd_pair_map]; exact hnd
    cases hlin : linearOrder (relabelTree (get_nodes_in_data_tree g0 i) g0)
        (get_nodes_in_data_tree g0 i) with
    | none =>
      simp only [run_data_tree_body, hfind, hlm, hnm, hvals, set_run_connections,
        hlin, resultGraph]
      intro j
      by_cases hj : j ∈ get_nodes_in_data_tree g0 i
      · have hl := nodeAt_restoreLabelsD_mem
          ((get_nodes_in_data_tree g0 i).map
            (fun k => (labelAt g0 k ++ natStr k, labelAt g0 k)))
          ((get_nodes_in_data_tree g0 i).map
            (fun k => (labelAt g0 k ++ natStr k, k)))
          (relabelTree (get_nodes_in_data_tree g0 i) g0)
          (labelAt g0 j ++ natStr j, j)
          (List.mem_map_of_mem (fun k => (labelAt g0 k ++ natStr k, k)) hj) hndn
        have hdg : dictGet
            ((get_nodes_in_data_tree g0 i).map
              (fun k => (labelAt g0 k ++ natStr k, labelAt g0 k)))
            (labelAt g0 j ++ natStr j) [] = labelAt g0 j :=
          dictGet_map_pair (fun k => labelAt g0 k ++ natStr k)
            (fun k => labelAt g0 k) (get_nodes_in_data_tree g0 i) j [] hj hfree
        unfold shapeAt
        rw [hl, nodeAt_relabelTree_mem _ _ _ hj hnd]
        cases hg0 : nodeAt g0 j with
        | none => rfl
        | some n0 =>
          simp only [Option.map_some']
          have hlb : labelAt g0 j = n0.label := by
            unfold labelAt
            rw [hg0]
          rw [hdg, hlb]
      · unfold shapeAt
        rw [nodeAt_restoreLabelsD_not_mem _ _ _ _
            (fun x hx hk => by
              obtain ⟨y, hy, rfl⟩ := List.mem_map.mp hx
              exact hj (hk ▸ hy)),
          nodeAt_relabelTree_not_mem _ _ _ hj]
    | some order =>
      have horder := linearOrder_subset _ _ _ hlin
      simp only [run_data_tree_body, hfind, hlm, hnm, hvals, set_run_connections,
        hlin]
      have hmid_out : ∀ j, j ∉ get_nodes_in_data_tree g0 i →
          shapeAt (disconnectRun i (wireChain order
            ((get_nodes_in_data_tree g0 i).foldl (fun h x => disconnectRun x h)
              (relabelTree (get_nodes_in_data_tree g0 i) g0)))) j = shapeAt g0 j := by
        intro j hj
        unfold shapeAt
        rw [nodeAt_disconnectRun_ne i _ j (fun h => hj (h ▸ hself)),
          nodeAt_wireChain_not_mem _ _ _
            (fun ab hab hk => by
              have hb : ab.2 ∈ order.drop 1 := (List.of_mem_zip hab).2
              exact hj (hk ▸ horder ab.2 (List.mem_of_mem_drop hb))),
          nodeAt_clearRun_not_mem _ _ _ hj,
          nodeAt_relabelTree_not_mem _ _ _ hj]
      have hmid_some : ∀ j,
          (nodeAt (disconnectRun i (wireChain order
            ((get_nodes_in_data_tree g0 i).foldl (fun h x => disconnectRun x h)
              (relabelTree (get_nodes_in_data_tree g0 i) g0)))) j).isSome =
          (nodeAt g0 j).isSome := by
        intro j
        rw [isSome_disconnectRun, isSome_wireChain, isSome_clearRun,
          isSome_relabelTree]
      by_cases hstart : order.head? = some i
      · rw [if_pos hstart]
        simp only [resultGraph]
        exact restore_all g0 _ hnd hfree _ _ hmid_out hmid_some
          (shapePreserved_refl _)
      · rw [if_neg hstart]
        have hp := hpush (order.headD i) (disconnectRun i (wireChain order
          ((get_nodes_in_data_tree g0 i).foldl (fun h x => disconnectRun x h)
            (relabelTree (get_nodes_in_data_tree g0 i) g0))))
        cases hres : push (order.headD i) (disconnectRun i (wireChain order
            ((get_nodes_in_data_tree g0 i).foldl (fun h x => disconnectRun x h)
              (relabelTree (get_nodes_in_data_tree g0 i) g0)))) with
        | ok h =>
          rw [hres] at hp
          simp only [resultGraph] at hp
          simp only [hres, resultGraph]
          exact restore_all g0 _ hnd hfree _ h hmid_out hmid_some hp
        | error e =>
          obtain ⟨e', h⟩ := e
          rw [hres] at hp
          simp only [resultGraph] at hp
          simp only [hres, resultGraph]
          exact restore_all g0 _ hnd hfree _ h hmid_out hmid_some hp

/-- The path `semPath` satisfies the recurrence of the source property
(`prefix + delimiter + label` with the parent's path as prefix). -/
theorem semPath_snoc (chain : List Str) (l : Str) :
    semPath (chain ++ [l]) = semPath chain ++ delim :: l := by
  simp [semPath]

theorem splitOnDelim_append (l s : Str) (hl : delim ∉ l) (w : Str)
    (ws : List Str) (hs : splitOnDelim s = w :: ws) :
    splitOnDelim (l ++ s) = (l ++ w) :: ws := by
  induction l with
  | nil => simpa using hs
  | cons c l ih =>
    have hc : ¬ (c = delim) := by
      intro h; subst h; exact hl (List.mem_cons_self _ _)
    have hl' : delim ∉ l := fun h => hl (List.mem_cons_of_mem c h)
    rw [List.cons_append, splitOnDelim, if_neg hc, ih hl']
    rfl

theorem splitOnDelim_semPath (chain : List Str)
    (h : ∀ l ∈ chain, delim ∉ l) :
    splitOnDelim (semPath chain) = [] :: chain := by
  induction chain with
  | nil => rfl
  | cons l rest ih =>
    have hsem : semPath (l :: rest) = delim :: (l ++ semPath rest) := by
      simp [semPath]
    rw [hsem, splitOnDelim, if_pos rfl,
      splitOnDelim_append l (semPath rest) (h l (List.mem_cons_self l rest)) []
        rest (ih (fun x hx => h x (List.mem_cons_of_mem l hx)))]
    simp

theorem labelUpd_cons {α β : Type} (u : α → β → α) (a : Str × α)
    (t : List (Str × α)) (kv : Str × β) :
    labelUpd u (a :: t) kv =
      (if a.1 = kv.1 then (a.1, u a.2 kv.2) else a) :: labelUpd u t kv := by
  by_cases h : a.1 = kv.1 <;> simp [labelUpd, h]

theorem labelUpd_of_not_mem {α β : Type} (u : α → β → α) (l : List (Str × α))
    (kv : Str × β) (h : ∀ kc ∈ l, ¬ (kc.1 = kv.1)) : labelUpd u l kv = l := by
  induction l with
  | nil => rfl
  | cons a t ih =>
    rw [labelUpd_cons, if_neg (h a (List.mem_cons_self a t)),
      ih (fun kc hkc => h kc (List.mem_cons_of_mem a hkc))]

theorem foldl_labelUpd_cons {α β : Type} (u : α → β → α)
    (s : List (Str × β)) (a : Str × α) (t : List (Str × α))
    (h : ∀ kv ∈ s, ¬ (a.1 = kv.1)) :
    s.foldl (labelUpd u) (a :: t) = a :: s.foldl (labelUpd u) t := by
  induction s generalizing t with
  | nil => rfl
  | cons kv s ih =>
    rw [List.foldl_cons, labelUpd_cons, if_neg (h kv (List.mem_cons_self kv s)),
      List.foldl_cons]
    exact ih _ (fun kv' hkv => h kv' (List.mem_cons_of_mem _ hkv))

theorem foldl_labelUpd_proj {α β : Type} (u : α → β → α) (proj : α → Option Nat)
    (pval : β → Option Nat) (hproj : ∀ a b, proj (u a b) = pval b)
    (s : List (Str × β)) (l : List (Str × α))
    (hkeys : s.map Prod.fst = l.map Prod.fst)
    (hnodup : (s.map Prod.fst).Nodup) :
    (s.foldl (labelUpd u) l).map (fun kc => (kc.1, proj kc.2)) =
      s.map (fun kv => (kv.1, pval kv.2)) := by
  induction s generalizing l with
  | nil =>
    have hl : l = [] := by
      cases l with
      | nil => rfl
      | cons a t => simp at hkeys
    subst hl; rfl
  | cons kv s ih =>
    cases l with
    | nil => simp at hkeys
    | cons a t =>
      simp only [List.map_cons, List.cons.injEq] at hkeys
      obtain ⟨hk, ht⟩ := hkeys
      simp only [List.map_cons, List.nodup_cons] at hnodup
      obtain ⟨hknot, hnd⟩ := hnodup
      have htfix : labelUpd u t kv = t := by
        refine labelUpd_of_not_mem u t kv (fun kc hkc hkck => ?_)
        exact hknot (by rw [← hkck, ht]; exact List.mem_map_of_mem Prod.fst hkc)
      have hcons : s.foldl (labelUpd u) ((a.1, u a.2 kv.2) :: t) =
          (a.1, u a.2 kv.2) :: s.foldl (labelUpd u) t := by
        refine foldl_labelUpd_cons u s _ t (fun kv' hkv' hak => hknot ?_)
        have hkk : kv.1 = kv'.1 := by rw [hk]; exact hak
        rw [hkk]
        exact List.mem_map_of_mem Prod.fst hkv'
      rw [List.foldl_cons, labelUpd_cons, if_pos hk.symm, htfix, hcons,
        List.map_cons, hproj, ih t ht hnd]
      simp [← hk]

theorem find?_map_keyPres {α β : Type} (t : Str × α → Str × β)
    (ht : ∀ kc, (t kc).1 = kc.1) (l : List (Str × α)) (k : Str) :
    (l.map t).find? (fun kc => kc.1 = k) =
      (l.find? (fun kc => kc.1 = k)).map t := by
  induction l with
  | nil => rfl
  | cons a l ih =>
    by_cases h : a.1 = k <;> simp [List.find?_cons, ht a, h, ih]

theorem lookupInput_fetch (g : Graph) (i : Nat) (k : Str) :
    lookupInput (fetch_inputs i g) i k =
      (lookupInput g i k).map (fun c =>
        match firstData g c.connections with
        | some v => { c with value := some v }
        | none => c) := by
  unfold lookupInput inputsAt fetch_inputs
  rw [nodeAt_updAt, if_pos rfl]
  cases hn : nodeAt g i with
  | none => rfl
  | some n =>
    simp only [Option.map_some']
    rw [find?_map_keyPres _
      (fun kc => by cases hf : firstData g kc.2.connections <;> simp [hf]) n.inputs k]
    cases hf : n.inputs.find? (fun kc => kc.1 = k) with
    | none => rfl
    | some kc =>
      simp only [Option.map_some']
      cases hd : firstData g kc.2.connections <;> simp [hd]

theorem find?_foldl_labelUpd {α β : Type} (u : α → β → α)
    (s : List (Str × β)) (l : List (Str × α)) (k : Str) (c : α)
    (hc : l.find? (fun kc => kc.1 = k) = some (k, c)) :
    (s.foldl (labelUpd u) l).find? (fun kc => kc.1 = k) =
      some (k, s.foldl (fun a kv => if k = kv.1 then u a kv.2 else a) c) := by
  induction s generalizing l c with
  | nil => simpa using hc
  | cons kv s ih =>
    rw [List.foldl_cons, List.foldl_cons]
    apply ih
    have hmap := find?_map_keyPres
      (fun kc => if kc.1 = kv.1 then (kc.1, u kc.2 kv.2) else kc)
      (fun kc => by by_cases h : kc.1 = kv.1 <;> simp [h]) l k
    have : labelUpd u l kv =
        l.map (fun kc => if kc.1 = kv.1 then (kc.1, u kc.2 kv.2) else kc) := rfl
    rw [this, hmap, hc]
    simp only [Option.map_some']
    by_cases h : k = kv.1 <;> simp [h]

theorem scalar_fold_id {α β : Type} (u : α → β → α) (s : List (Str × β))
    (k : Str) (c : α) (h : ∀ kv ∈ s, ¬ (k = kv.1)) :
    s.foldl (fun a kv => if k = kv.1 then u a kv.2 else a) c = c := by
  induction s generalizing c with
  | nil => rfl
  | cons kv s ih =>
    rw [List.foldl_cons, if_neg (h kv (List.mem_cons_self kv s))]
    exact ih c (fun kv' hkv => h kv' (List.mem_cons_of_mem _ hkv))

theorem scalar_fold_of_mem {α β : Type} (u : α → β → α) (s : List (Str × β))
    (k : Str) (w : β) (c : α) (hmem : (k, w) ∈ s)
    (hnd : (s.map Prod.fst).Nodup) :
    s.foldl (fun a kv => if k = kv.1 then u a kv.2 else a) c = u c w := by
  induction s generalizing c with
  | nil => simp at hmem
  | cons kv s ih =>
    simp only [List.map_cons, List.nodup_cons] at hnd
    rcases List.mem_cons.mp hmem with heq | hmem'
    · subst heq
      rw [List.foldl_cons]
      simp only [if_pos rfl]
      refine scalar_fold_id u s k (u c w) (fun kv' hkv hk => ?_)
      have hmm : kv'.1 ∈ s.map Prod.fst := List.mem_map_of_mem Prod.fst hkv
      exact hnd.1 (by rw [hk]; exact hmm)
    · have hmm : k ∈ s.map Prod.fst := List.mem_map_of_mem Prod.fst hmem'
      have hk : ¬ (k = kv.1) := fun h => hnd.1 (h ▸ hmm)
      rw [List.foldl_cons, if_neg hk]
      exact ih c hmem' hnd.2

theorem lookupInput_set_input_values {g : Graph} {i : Nat}
    {kwargs : List (Str × Nat)} {k : Str} {w : Nat} {c : InputChannel}
    (hmem : (k, w) ∈ kwargs) (hnd : (kwargs.map Prod.fst).Nodup)
    (hc : lookupInput g i k = some c) :
    lookupInput (set_input_values i kwargs g) i k =
      some { c with value := some w } := by
  unfold lookupInput inputsAt set_input_values
  rw [nodeAt_updAt, if_pos rfl]
  unfold lookupInput inputsAt at hc
  cases hn : nodeAt g i with
  | none => rw [hn] at hc; simp at hc
  | some n =>
    rw [hn] at hc
    simp only [Option.map_some'] at hc ⊢
    obtain ⟨e, he, hec⟩ := Option.map_eq_some'.mp hc
    have hek : e.1 = k := by
      have := List.find?_some he
      simpa using this
    obtain ⟨k', c'⟩ := e
    simp only at hek hec
    subst hek; subst hec
    rw [find?_foldl_labelUpd _ kwargs n.inputs k' c' he,
      scalar_fold_of_mem (fun c v => { c with value := some v }) kwargs k' w c'
        hmem hnd]
    rfl

theorem mem_joinSep_infix (sep x : Str) (xs : List Str) (h : x ∈ xs) :
    x <:+: joinSep sep xs := by
  induction xs with
  | nil => simp at h
  | cons y ys ih =>
    rcases List.mem_cons.mp h with heq | h'
    · subst heq
      cases ys with
      | nil => exact List.infix_rfl
      | cons z zs =>
        exact ⟨[], sep ++ joinSep sep (z :: zs), by simp [joinSep]⟩
    · cases ys with
      | nil => simp at h'
      | cons z zs =>
        obtain ⟨s, t, hst⟩ := ih h'
        refine ⟨y ++ sep ++ s, t, ?_⟩
        show y ++ sep ++ s ++ x ++ t = joinSep sep (y :: z :: zs)
        rw [show joinSep sep (y :: z :: zs) = y ++ sep ++ joinSep sep (z :: zs)
            from rfl, ← hst]
        simp [List.append_assoc]

/-!
## Claim theorems
-/

/-- C4: for every node, `ready` holds iff the node is neither `running`
nor `failed` and every data input holds a value conforming to its type
constraint (exempt inputs having the identically-true constraint); in
particular `ready` is false whenever `running` or `failed` is true. -/
theorem ready_characterisation (g : Graph) (i : Nat) (n : NodeState)
    (h : nodeAt g i = some n) :
    (nodeReady i g = true ↔
      (n.running = false ∧ n.failed = false ∧ ∀ kc ∈ n.inputs, kc.2.readyB = true))
    ∧ ((n.running = true ∨ n.failed = true) → nodeReady i g = false) := by
  have hmain : nodeReady i g = true ↔
      (n.running = false ∧ n.failed = false ∧ ∀ kc ∈ n.inputs, kc.2.readyB = true) := by
    simp [nodeReady, runnableReady, inputsReady, h, List.all_eq_true,
      Bool.and_eq_true, Bool.not_eq_true']
    tauto
  refine ⟨hmain, fun hrf => ?_⟩
  cases hb : nodeReady i g
  · rfl
  · obtain ⟨h1, h2, _⟩ := hmain.mp hb
    rcases hrf with hr | hr
    · rw [hr] at h1; exact absurd h1 (by simp)
    · rw [hr] at h2; exact absurd h2 (by simp)

/-- Witness for C4 at a concrete ready node. -/
theorem ready_characterisation_witness : nodeReady 1 okGraph = true :=
  ((ready_characterisation okGraph 1 okNode rfl).1).mpr
    ⟨rfl, rfl, by
      intro kc hkc
      simp only [okNode, List.mem_singleton] at hkc
      subst hkc
      rfl⟩

/-- C5: `execute` is `run` with upstream running, input fetching,
readiness checking and `ran`-signal emission disabled and local execution
forced; `pull` is `run` with `run_data_tree` set, `emit_ran_signal`
cleared, its own `run_parent_trees_too` forwarded and the other flags at
their defaults; calling the node is `pull` with
`run_parent_trees_too=True`. -/
theorem run_aliases (push : PushFn) (onRun : OnRunFn) (emitFn : EmitFn)
    (fuel i : Nat) (kwargs : List (Str × Nat)) (g : Graph) :
    (Node.execute push onRun emitFn fuel i kwargs g =
      Node.run push onRun emitFn fuel i
        { runDefaults with
          fetch_input := false, check_readiness := false,
          force_local_execution := true, emit_ran_signal := false } kwargs g)
    ∧ (∀ rpt, Node.pull push onRun emitFn fuel i rpt kwargs g =
      Node.run push onRun emitFn fuel i
        { runDefaults with
          run_data_tree := true, run_parent_trees_too := rpt,
          emit_ran_signal := false } kwargs g)
    ∧ (Node.call push onRun emitFn fuel i kwargs g =
      Node.pull push onRun emitFn fuel i true kwargs g) :=
  ⟨rfl, fun _ => rfl, rfl⟩

/-- C10: for construction with `run_after_init=True`: when saved content
exists and would be auto-loaded, a `ValueError` is raised before loading
or running anything; otherwise a `ReadinessError` from the post-init run
is suppressed and construction completes cleanly, while any other
exception from the run propagates. -/
theorem post_init_behaviour (py311 hc ow : Bool) (runOut : RunOutcome) :
    ((if ow && py311 then false else py311 && hc) = true →
      nodePost py311 hc ow true runOut =
        Except.error (PyErr.valueErr loadAndRunErrMsg, []))
    ∧ ((if ow && py311 then false else py311 && hc) = false →
        runOut = RunOutcome.readinessErr →
        nodePost py311 hc ow true runOut =
          Except.ok ((if ow && py311 then [PostAction.deleteStorage] else []) ++
            [PostAction.ran, PostAction.tidy]))
    ∧ ((if ow && py311 then false else py311 && hc) = false →
        ∀ e, runOut = RunOutcome.otherErr e →
          nodePost py311 hc ow true runOut =
            Except.error (PyErr.compute e,
              (if ow && py311 then [PostAction.deleteStorage] else []) ++
                [PostAction.ran])) := by
  refine ⟨fun hdl => ?_, fun hdl hro => ?_, fun hdl e hro => ?_⟩
  · cases py311 <;> cases hc <;> cases ow <;> simp_all [nodePost]
  · subst hro; cases py311 <;> cases hc <;> cases ow <;> simp_all [nodePost]
  · subst hro; cases py311 <;> cases hc <;> cases ow <;> simp_all [nodePost]

/-- Witness for C10: saved content present on Python ≥ 3.11 with
`run_after_init=True` raises the `ValueError` with nothing done before. -/
theorem post_init_behaviour_witness :
    nodePost true true false true RunOutcome.ok =
      Except.error (PyErr.valueErr loadAndRunErrMsg, []) :=
  (post_init_behaviour true true false RunOutcome.ok).1 rfl

/-- C2: `Node.run` applies keyword overrides to the input channels first;
then, with `run_data_tree` set, pulls the upstream data tree (recursing
into the parent chain first when `run_parent_trees_too` is set); then,
with `fetch_input` set, each data input adopts the value of its first
connected source holding real data — so fetched values overwrite keyword
overrides, while inputs with no data-holding source keep their user-set
values. -/
theorem run_effect_order (push : PushFn) (onRun : OnRunFn) (emitFn : EmitFn)
    (fuel i : Nat) (fl : RunFlags) (kwargs : List (Str × Nat)) (g : Graph) :
    (Node.run push onRun emitFn fuel i fl kwargs g =
      match (if fl.run_data_tree then
          run_data_tree push fuel i fl.run_parent_trees_too
            (set_input_values i kwargs g)
        else Except.ok (set_input_values i kwargs g)) with
      | Except.error e => Except.error e
      | Except.ok g2 =>
        runnableRun i fl.check_readiness fl.force_local_execution
          fl.emit_ran_signal onRun emitFn
          (if fl.fetch_input then fetch_inputs i g2 else g2))
    ∧ (∀ p, parentAt g i = some p →
        run_data_tree push (fuel + 1) i true g =
          match run_data_tree push fuel p true g with
          | Except.error e => Except.error e
          | Except.ok h => run_data_tree_body push i (fetch_inputs p h))
    ∧ (∀ (g2 : Graph) (k : Str) (c : InputChannel) (v : Nat),
        lookupInput g2 i k = some c → firstData g2 c.connections = some v →
        lookupInput (fetch_inputs i g2) i k = some { c with value := some v })
    ∧ (∀ (g2 : Graph) (k : Str) (c : InputChannel),
        lookupInput g2 i k = some c → firstData g2 c.connections = none →
        lookupInput (fetch_inputs i g2) i k = some c)
    ∧ (∀ (k : Str) (w : Nat) (c : InputChannel),
        (k, w) ∈ kwargs → (kwargs.map Prod.fst).Nodup →
        lookupInput g i k = some c →
        lookupInput (set_input_values i kwargs g) i k =
          some { c with value := some w }) := by
  refine ⟨?_, ?_, ?_, ?_, ?_⟩
  · unfold Node.run runPrelude
    cases hif : (if fl.run_data_tree then
        run_data_tree push fuel i fl.run_parent_trees_too
          (set_input_values i kwargs g)
      else Except.ok (set_input_values i kwargs g)) with
    | error e => simp [hif]
    | ok g2 => simp [hif]
  · intro p hp
    rw [run_data_tree, if_pos rfl, hp]
  · intro g2 k c v hc hd
    rw [lookupInput_fetch, hc]
    simp [hd]
  · intro g2 k c hc hd
    rw [lookupInput_fetch, hc]
    simp [hd]
  · intro k w c hmem hnd hc
    exact lookupInput_set_input_values hmem hnd hc

/-- Witness for C2: on the concrete two-node heap, fetching overwrites
the user-set `5` on input `x` with the upstream value `7`. -/
theorem run_effect_order_witness :
    lookupInput (fetch_inputs 1 pairGraph) 1 (str "x") =
      some (InputChannel.mk (some 7) (fun _ => true) [(2, str "y")]) :=
  (run_effect_order pushNothing onRunNothing emitNothing 0 1 runDefaults []
      pairGraph).2.2.1 pairGraph (str "x") sinkInput 7 rfl rfl

/-- C6: invoking `run` with readiness checking enabled on a node that is
not ready (after the override/tree/fetch stages) raises a
`ReadinessError` synchronously — the carried graph is exactly the
pre-compute state and the result does not depend on the node's
computation — and the error message embeds a per-input report with one
`"<label> ready: <bool>"` line per input channel. -/
theorem readiness_error_behaviour (push : PushFn) (onRun : OnRunFn)
    (emitFn : EmitFn) (fuel i : Nat) (fl : RunFlags)
    (kwargs : List (Str × Nat)) (g g3 : Graph)
    (hcheck : fl.check_readiness = true)
    (hprel : runPrelude push fuel i fl kwargs g = Except.ok g3)
    (hnotready : nodeReady i g3 = false) :
    (Node.run push onRun emitFn fuel i fl kwargs g =
      Except.error (PyErr.readiness (readiness_error_message i g3), g3))
    ∧ (∀ kc ∈ inputsAt g3 i,
        (kc.1 ++ str " ready: " ++ pyBool kc.2.readyB) <:+:
          readiness_error_message i g3) := by
  constructor
  · have hrun : Node.run push onRun emitFn fuel i fl kwargs g =
        runnableRun i fl.check_readiness fl.force_local_execution
          fl.emit_ran_signal onRun emitFn g3 := by
      unfold Node.run
      rw [hprel]
    rw [hrun]
    unfold runnableRun
    rw [hcheck, hnotready]
    simp
  · intro kc hkc
    have hj : (kc.1 ++ str " ready: " ++ pyBool kc.2.readyB) <:+:
        joinSep (str "\n") ((inputsAt g3 i).map
          (fun kc => kc.1 ++ str " ready: " ++ pyBool kc.2.readyB)) :=
      mem_joinSep_infix _ _ _
        (List.mem_map_of_mem (fun kc => kc.1 ++ str " ready: " ++ pyBool kc.2.readyB)
          hkc)
    obtain ⟨s, t, hst⟩ := hj
    refine ⟨labelAt g3 i ++ notReadyMsgBody ++
      (runnableReadinessReport i g3 ++ str "INPUTS:\n" ++ s), t, ?_⟩
    show labelAt g3 i ++ notReadyMsgBody ++
        (runnableReadinessReport i g3 ++ str "INPUTS:\n" ++ s) ++
        (kc.1 ++ str " ready: " ++ pyBool kc.2.readyB) ++ t =
      readiness_error_message i g3
    unfold readiness_error_message readiness_report
    rw [← hst]
    simp [List.append_assoc]

/-- Witness for C6: the concrete not-ready node yields the per-input
line for its empty input `x` inside the raised message. -/
theorem readiness_error_behaviour_witness :
    (str "x" ++ str " ready: " ++ pyBool false) <:+:
      readiness_error_message 1
        (fetch_inputs 1 (set_input_values 1 [] notReadyGraph)) := by
  have h := readiness_error_behaviour pushNothing onRunNothing emitNothing 0 1
    runDefaults [] notReadyGraph
    (fetch_inputs 1 (set_input_values 1 [] notReadyGraph)) rfl rfl rfl
  exact h.2 (str "x", notReadyInput) (List.mem_singleton.mpr rfl)

/-- Fetching inputs changes no node's label or run-signal connections. -/
theorem shape_fetch_inputs (p : Nat) (h : Graph) :
    ShapePreserved h (fetch_inputs p h) := by
  intro j
  unfold shapeAt fetch_inputs
  rw [nodeAt_updAt]
  by_cases hpj : p = j
  · rw [if_pos hpj]
    cases nodeAt h j <;> rfl
  · rw [if_neg hpj]

/-- C1, counterexample to the unconditional claim: in `shadowGraph` the
nodes 11 (label `"x"`, run-signal connection to 9) and 1 (label `"x1"`)
form one data tree whose modified labels collide on `"x11"`, so the
`label_map`/`nodes` dicts of `run_data_tree` lose node 11; pulling node
11 succeeds, yet leaves node 11 with the temporary label and without its
run-signal connection — the `finally` block fails to restore it. -/
theorem pull_restore_collision_counterexample :
    (run_data_tree pushNothing 0 11 false shadowGraph).isOk = true ∧
    shapeAt (resultGraph (run_data_tree pushNothing 0 11 false shadowGraph)) 11 ≠
      shapeAt shadowGraph 11 := by
  decide

/-- C1, amended: for every pull over a data tree, with a pushed execution
that itself never rewires labels or run-signal connections, and provided
the temporary relabelling `label + str(id)` is collision-free at every
scope the recursion rewrites (otherwise the `label_map`/`nodes` dicts
keyed by modified label lose a node, and its label and the severed
run-signal connections stay lost), `run_data_tree` leaves every node's
label and run-signal connections exactly as found — on the
cycle-detection abort (before the `CircularDataFlowError` propagates), on
executor rejection, and, whenever the rewritten chain is actually
triggered, unconditionally on both success and failure of the pushed
execution, as by a finally-block. -/
theorem pull_restores (push : PushFn)
    (hpush : ∀ s g', ShapePreserved g' (resultGraph (push s g')))
    (fuel i : Nat) (rpt : Bool) (g : Graph)
    (hfree : chainFree push fuel i rpt g) :
    ShapePreserved g (resultGraph (run_data_tree push fuel i rpt g)) := by
  induction fuel generalizing i rpt g with
  | zero =>
    rw [run_data_tree]
    cases rpt with
    | false =>
      simp only [Bool.false_eq_true, if_false]
      rw [chainFree] at hfree
      simp only [Bool.false_eq_true, if_false] at hfree
      exact body_restores push hpush i g hfree
    | true =>
      simp only [if_true]
      cases hp : parentAt g i with
      | some p =>
        simp only [resultGraph]
        exact shapePreserved_refl g
      | none =>
        have hfree' : treeFree i g := by
          rw [chainFree, if_pos rfl, hp] at hfree
          exact hfree
        exact body_restores push hpush i g hfree'
  | succ fuel ih =>
    rw [run_data_tree]
    cases rpt with
    | false =>
      simp only [Bool.false_eq_true, if_false]
      rw [chainFree] at hfree
      simp only [Bool.false_eq_true, if_false] at hfree
      exact body_restores push hpush i g hfree
    | true =>
      simp only [if_true]
      cases hp : parentAt g i with
      | none =>
        have hfree' : treeFree i g := by
          rw [chainFree, if_pos rfl, hp] at hfree
          exact hfree
        exact body_restores push hpush i g hfree'
      | some p =>
        rw [chainFree, if_pos rfl, hp] at hfree
        obtain ⟨h1, h2⟩ := hfree
        show ShapePreserved g (resultGraph
          (match run_data_tree push fuel p true g with
           | Except.error e => Except.error e
           | Except.ok h => run_data_tree_body push i (fetch_inputs p h)))
        cases hres : run_data_tree push fuel p true g with
        | error e =>
          obtain ⟨e', h⟩ := e
          have := ih p true g h1
          rw [hres] at this
          exact this
        | ok h =>
          have hsh : ShapePreserved g h := by
            have := ih p true g h1
            rw [hres] at this
            exact this
          exact shapePreserved_trans
            (shapePreserved_trans hsh (shape_fetch_inputs p h))
            (body_restores push hpush i (fetch_inputs p h) (h2 h hres))

/-- Witness for the amended C1: pulling inside the cyclic two-node heap
(collision-free, with a shape-preserving push stub) leaves node 1's and
node 2's shapes exactly as found, and the pull indeed aborts with the
`CircularDataFlowError`. -/
theorem pull_restores_witness :
    shapeAt (resultGraph (run_data_tree pushNothing 3 1 false cyclicGraph)) 1 =
      shapeAt cyclicGraph 1 ∧
    shapeAt (resultGraph (run_data_tree pushNothing 3 1 false cyclicGraph)) 2 =
      shapeAt cyclicGraph 2 :=
  ⟨pull_restores pushNothing (fun _ _ _ => rfl) 3 1 false cyclicGraph
      (show treeFree 1 cyclicGraph by decide) 1,
    pull_restores pushNothing (fun _ _ _ => rfl) 3 1 false cyclicGraph
      (show treeFree 1 cyclicGraph by decide) 2⟩

/-- C3: when the upstream data-tree closure contains a node with an
executor assigned (the source walks the closure with `find?`),
`run_data_tree` fails with a `ValueError` naming the offending node, and
the failure happens before any label rewriting or signal-connection
mutation: the carried graph is exactly the input graph. -/
theorem executor_rejection (push : PushFn) (fuel i : Nat) (g : Graph) (j : Nat)
    (hfind : (get_nodes_in_data_tree g i).find?
      (fun j => executorAt g j) = some j) :
    j ∈ get_nodes_in_data_tree g i ∧ executorAt g j = true ∧
      run_data_tree push fuel i false g =
        Except.error (PyErr.valueErr (executorErrMsg (labelAt g j)), g) := by
  refine ⟨List.mem_of_find?_eq_some hfind, List.find?_some hfind, ?_⟩
  have hbody : run_data_tree push fuel i false g = run_data_tree_body push i g := by
    rw [run_data_tree]
    rfl
  rw [hbody]
  simp only [run_data_tree_body, hfind]

/-- Witness for C3: the one-node heap whose node holds an executor is
rejected with the graph untouched. -/
theorem executor_rejection_witness :
    run_data_tree pushNothing 0 1 false execGraph =
      Except.error (PyErr.valueErr (executorErrMsg (str "n4")), execGraph) :=
  (executor_rejection pushNothing 0 1 execGraph 1 rfl).2.2

/-- C7, counterexample: the relabelling `label + str(id)` is not
pairwise distinct across all distinct nodes of a data tree — nodes 11
(label `"x"`) and 1 (label `"x1"`) of one tree both map to `"x11"`. -/
theorem relabel_collision_counterexample :
    11 ∈ get_nodes_in_data_tree collideGraph 11 ∧
    1 ∈ get_nodes_in_data_tree collideGraph 11 ∧
    (11 : Nat) ≠ 1 ∧
    labelAt collideGraph 11 ++ natStr 11 = labelAt collideGraph 1 ++ natStr 1 ∧
    labelAt (relabelTree (get_nodes_in_data_tree collideGraph 11) collideGraph) 11 =
      labelAt (relabelTree (get_nodes_in_data_tree collideGraph 11) collideGraph) 1 := by
  decide

/-- C7, amended: during `run_data_tree`, distinct nodes of the data tree
that carry the same label receive distinct modified labels
`label + str(id)` (decimal object ids are injective), which is what the
relabelling is for; unrelated distinct labels may still collide. -/
theorem relabel_distinct_same_label (g : Graph) (i a b : Nat)
    (ha : a ∈ get_nodes_in_data_tree g i) (hb : b ∈ get_nodes_in_data_tree g i)
    (hne : a ≠ b) (hlab : labelAt g a = labelAt g b) :
    labelAt g a ++ natStr a ≠ labelAt g b ++ natStr b := by
  intro h
  rw [hlab] at h
  exact hne (natStr_inj (List.append_cancel_left h))

/-- Witness for the amended C7: the two same-labelled nodes of
`twinGraph` get distinct modified labels. -/
theorem relabel_distinct_same_label_witness :
    labelAt twinGraph 5 ++ natStr 5 ≠ labelAt twinGraph 7 ++ natStr 7 :=
  relabel_distinct_same_label twinGraph 5 5 7 (by decide) (by decide)
    (by decide) (by decide)

/-- C8: re-applying a projection captured by `to_storage` through
`from_storage` restores the `running`, `failed` and `save_after_run`
flags and the value of every input and output data channel to their
values at capture time, for any node of the same channel-label layout the
projection is applied to. -/
theorem storage_roundtrip (n m : NodeState)
    (hin : m.inputs.map Prod.fst = n.inputs.map Prod.fst)
    (hout : m.outputs.map Prod.fst = n.outputs.map Prod.fst)
    (hnin : (n.inputs.map Prod.fst).Nodup)
    (hnout : (n.outputs.map Prod.fst).Nodup) :
    (from_storage (to_storage n) m).running = n.running
    ∧ (from_storage (to_storage n) m).failed = n.failed
    ∧ (from_storage (to_storage n) m).save_after_run = n.save_after_run
    ∧ (from_storage (to_storage n) m).inputs.map (fun kc => (kc.1, kc.2.value)) =
        n.inputs.map (fun kc => (kc.1, kc.2.value))
    ∧ (from_storage (to_storage n) m).outputs.map (fun kc => (kc.1, kc.2.value)) =
        n.outputs.map (fun kc => (kc.1, kc.2.value)) := by
  have hinkeys : (to_storage n).inputs.map Prod.fst = m.inputs.map Prod.fst := by
    simp [to_storage, List.map_map, hin]
  have hinnodup : ((to_storage n).inputs.map Prod.fst).Nodup := by
    simpa [to_storage, List.map_map] using hnin
  have houtkeys : (to_storage n).outputs.map Prod.fst = m.outputs.map Prod.fst := by
    simp [to_storage, List.map_map, hout]
  have houtnodup : ((to_storage n).outputs.map Prod.fst).Nodup := by
    simpa [to_storage, List.map_map] using hnout
  refine ⟨rfl, rfl, rfl, ?_, ?_⟩
  · have h := foldl_labelUpd_proj (fun c s => { c with value := s.val })
      (fun c => c.value) (fun s => s.val) (fun _ _ => rfl)
      (to_storage n).inputs m.inputs hinkeys hinnodup
    calc (from_storage (to_storage n) m).inputs.map (fun kc => (kc.1, kc.2.value))
        = ((to_storage n).inputs.foldl (labelUpd (fun c s => { c with value := s.val }))
            m.inputs).map (fun kc => (kc.1, kc.2.value)) := rfl
      _ = (to_storage n).inputs.map (fun kv => (kv.1, kv.2.val)) := h
      _ = n.inputs.map (fun kc => (kc.1, kc.2.value)) := by
          simp [to_storage, List.map_map]
  · have h := foldl_labelUpd_proj (fun (_ : OutputChannel) s => OutputChannel.mk s.val)
      (fun c => c.value) (fun s => s.val) (fun _ _ => rfl)
      (to_storage n).outputs m.outputs houtkeys houtnodup
    calc (from_storage (to_storage n) m).outputs.map (fun kc => (kc.1, kc.2.value))
        = ((to_storage n).outputs.foldl (labelUpd (fun _ s => OutputChannel.mk s.val))
            m.outputs).map (fun kc => (kc.1, kc.2.value)) := rfl
      _ = (to_storage n).outputs.map (fun kv => (kv.1, kv.2.val)) := h
      _ = n.outputs.map (fun kc => (kc.1, kc.2.value)) := by
          simp [to_storage, List.map_map]

/-- Witness for C8: restoring `okNode`'s captured projection onto its
drifted copy brings the flags and channel values back. -/
theorem storage_roundtrip_witness :
    (from_storage (to_storage okNode) driftedNode).running = okNode.running
    ∧ (from_storage (to_storage okNode) driftedNode).inputs.map
        (fun kc => (kc.1, kc.2.value)) =
        okNode.inputs.map (fun kc => (kc.1, kc.2.value)) :=
  ⟨(storage_roundtrip okNode driftedNode (by decide) (by decide) (by decide)
      (by decide)).1,
    (storage_roundtrip okNode driftedNode (by decide) (by decide) (by decide)
      (by decide)).2.2.2.1⟩

/-- C9: the semantic-tree component preserves the label invariant: a
non-string label raises `TypeError`; a label containing the delimiter
raises `ValueError` with the previous label untouched; a valid label is
stored; a non-`None` parent on a `Parentmost` owner raises `TypeError`;
and every derived semantic path splits unambiguously on the delimiter
into the chain of labels from root to node. -/
theorem semantics_invariants :
    (∀ s : SemState, setLabel s PyVal.nonStr = Except.error (PyErr.typeErr, s))
    ∧ (∀ (s : SemState) (l : Str), delim ∈ l →
        setLabel s (PyVal.pystr l) =
          Except.error (PyErr.valueErr (str "/ cannot be in the label"), s))
    ∧ (∀ (s : SemState) (l : Str), delim ∉ l →
        setLabel s (PyVal.pystr l) = Except.ok { s with label := l })
    ∧ (∀ (s : SemState) (p : ParentObj), s.isParentmost = true →
        setParent s (some p) = Except.error (PyErr.typeErr, s))
    ∧ (∀ chain : List Str, (∀ l ∈ chain, delim ∉ l) →
        splitOnDelim (semPath chain) = [] :: chain) := by
  refine ⟨fun s => rfl, fun s l hl => ?_, fun s l hl => ?_, fun s p hp => ?_,
    splitOnDelim_semPath⟩
  · simp [setLabel, hl]
  · simp [setLabel, hl]
  · simp [setParent, hp]

/-- Witness for C9: a label containing the delimiter is rejected with the
state untouched, and a two-level path splits back into its chain. -/
theorem semantics_invariants_witness :
    (setLabel (SemState.mk false (str "old") none) (PyVal.pystr (str "a/b")) =
      Except.error (PyErr.valueErr (str "/ cannot be in the label"),
        SemState.mk false (str "old") none))
    ∧ splitOnDelim (semPath [str "wf", str "child"]) =
        [[], str "wf", str "child"] :=
  ⟨semantics_invariants.2.1 _ _ (by decide),
    semantics_invariants.2.2.2.2 [str "wf", str "child"] (by decide)⟩

end PyironWorkflow
